import Mathlib

/-!
# honest-assessment: the form endpoint of `main.go`

A shallow embedding of `formInput.validate`, `getData`, `formInput.save`,
`handleFunc` and the server of `run` on the path `/`, together with the parts
of the Go standard library they call (`encoding/json` for `[]formInput`,
`unicode/utf8`, `ioutil.ReadFile`, `ioutil.WriteFile` and the response writer
of `net/http`), and the properties of the service proved over it.

Conventions.
* A Go `string` or `[]byte` is a list of bytes, each byte a natural number
  below 256.  A number of 256 or more never arises from the code; every
  function below treats one like an invalid UTF-8 byte.
* A Go `error` result is an `Option`: `none` is `nil`.
* Loops that advance by a variable number of bytes take a fuel argument that
  is started at the length of the input, which is never exhausted because
  every iteration consumes at least one byte.
-/

namespace HonestAssessment

/-- A Go string: its bytes in order. -/
abbrev GoString := List Nat

/-- The bytes of an ASCII string literal of the source. -/
def ascii (s : String) : GoString := s.toList.map Char.toNat

/-! ## unicode/utf8 -/

/-- The rune `utf8.RuneError` (U+FFFD). -/
def RuneError : Nat := 0xFFFD

/-- The bound `utf8.RuneSelf`: bytes below it are single-byte runes. -/
def RuneSelf : Nat := 0x80

/-- The constant `utf8.UTFMax`. -/
def UTFMax : Nat := 4

/-- The constant `utf8.MaxRune`. -/
def MaxRune : Nat := 0x10FFFF

/-- The table `utf8.first` joined with `utf8.acceptRanges`, for a lead byte of
0x80 or more: `some (size, lo, hi)` gives the length of the sequence and the
range the second byte must lie in, `none` is the entry `xx` (invalid). -/
def first (p0 : Nat) : Option (Nat × Nat × Nat) :=
  if 0xC2 ≤ p0 ∧ p0 ≤ 0xDF then some (2, 0x80, 0xBF)
  else if p0 = 0xE0 then some (3, 0xA0, 0xBF)
  else if (0xE1 ≤ p0 ∧ p0 ≤ 0xEC) ∨ p0 = 0xEE ∨ p0 = 0xEF then some (3, 0x80, 0xBF)
  else if p0 = 0xED then some (3, 0x80, 0x9F)
  else if p0 = 0xF0 then some (4, 0x90, 0xBF)
  else if 0xF1 ≤ p0 ∧ p0 ≤ 0xF3 then some (4, 0x80, 0xBF)
  else if p0 = 0xF4 then some (4, 0x80, 0x8F)
  else none

/-- The function `utf8.DecodeRune` (and `DecodeRuneInString`): the first rune
of `p` and its width in bytes; `(RuneError, 1)` for an invalid encoding and
`(RuneError, 0)` for empty input.  The masks and shifts of the source are
written as remainders and products. -/
def DecodeRune (p : GoString) : Nat × Nat :=
  match p with
  | [] => (RuneError, 0)
  | p0 :: rest =>
    if p0 < RuneSelf then (p0, 1)
    else
      match first p0 with
      | none => (RuneError, 1)
      | some (sz, lo, hi) =>
        if p.length < sz then (RuneError, 1)
        else
          match rest with
          | [] => (RuneError, 1)
          | b1 :: rest1 =>
            if b1 < lo ∨ hi < b1 then (RuneError, 1)
            else if sz ≤ 2 then ((p0 % 32) * 64 + b1 % 64, 2)
            else
              match rest1 with
              | [] => (RuneError, 1)
              | b2 :: rest2 =>
                if b2 < 0x80 ∨ 0xBF < b2 then (RuneError, 1)
                else if sz ≤ 3 then ((p0 % 16) * 4096 + (b1 % 64) * 64 + b2 % 64, 3)
                else
                  match rest2 with
                  | [] => (RuneError, 1)
                  | b3 :: _ =>
                    if b3 < 0x80 ∨ 0xBF < b3 then (RuneError, 1)
                    else ((p0 % 8) * 262144 + (b1 % 64) * 4096 + (b2 % 64) * 64 + b3 % 64, 4)

/-- The function `utf8.EncodeRune` (`AppendRune`): the UTF-8 bytes of rune
`r`; a surrogate or a rune above `MaxRune` is written as U+FFFD. -/
def EncodeRune (r : Nat) : GoString :=
  if r ≤ 0x7F then [r]
  else if r ≤ 0x7FF then [0xC0 + r / 64, 0x80 + r % 64]
  else if MaxRune < r ∨ (0xD800 ≤ r ∧ r ≤ 0xDFFF) then [0xEF, 0xBF, 0xBD]
  else if r ≤ 0xFFFF then [0xE0 + r / 4096, 0x80 + (r / 64) % 64, 0x80 + r % 64]
  else [0xF0 + r / 262144, 0x80 + (r / 4096) % 64, 0x80 + (r / 64) % 64, 0x80 + r % 64]

/-- The loop of `utf8.Valid`: every rune of `p` decodes without error. -/
def validLoop : Nat → GoString → Bool
  | _, [] => true
  | 0, _ :: _ => false
  | fuel + 1, p0 :: rest =>
    if p0 < RuneSelf then validLoop fuel rest
    else
      let d := DecodeRune (p0 :: rest)
      if d.1 = RuneError ∧ d.2 = 1 then false
      else validLoop fuel ((p0 :: rest).drop d.2)

/-- The function `utf8.Valid`: `p` consists entirely of valid UTF-8. -/
def Valid (p : GoString) : Bool := validLoop p.length p

/-- The loop of the conversion `string([]rune(s))`: every byte that does not
start a valid encoding is replaced by the three bytes of U+FFFD, every valid
encoding is kept. -/
def coerceLoop : Nat → GoString → GoString
  | _, [] => []
  | 0, _ :: _ => []
  | fuel + 1, p0 :: rest =>
    if p0 < RuneSelf then p0 :: coerceLoop fuel rest
    else
      let d := DecodeRune (p0 :: rest)
      if d.1 = RuneError ∧ d.2 = 1 then [0xEF, 0xBF, 0xBD] ++ coerceLoop fuel rest
      else (p0 :: rest).take d.2 ++ coerceLoop fuel ((p0 :: rest).drop d.2)

/-- The string `s` coerced to valid UTF-8 as `string([]rune(s))` does it: each
invalid byte replaced by U+FFFD.  This is what json.Marshal documents for
string values ("coerced to valid UTF-8, replacing invalid bytes with the
Unicode replacement rune"). -/
def coerce (s : GoString) : GoString := coerceLoop s.length s

/-! ## The data model of main.go -/

deriving instance DecidableEq for Except

/-- The struct `formInput`; its JSON keys are `first_name`, `last_name`,
`email` and `phone_number`, in this order. -/
structure formInput where
  FirstName : GoString
  LastName : GoString
  Email : GoString
  PhoneNumber : GoString
  deriving DecidableEq, Repr

/-- A Go value of type `[]formInput`: `none` is the nil slice, `some l` a
non-nil slice with the elements `l`. -/
abbrev formSlice := Option (List formInput)

/-- The elements of a slice; the nil slice has none. -/
def formSlice.elems : formSlice → List formInput
  | none => []
  | some l => l

/-! ## encoding/json: the encoder -/

/-- The table `htmlSafeSet` of encoding/json, for a byte below `RuneSelf`:
printable ASCII except the double quote, the ampersand, the angle brackets and
the backslash. -/
def htmlSafeSet (b : Nat) : Bool :=
  0x20 ≤ b && b < 0x80 && b != 0x22 && b != 0x26 && b != 0x3C && b != 0x3E && b != 0x5C

/-- The digit table `hex` of encoding/json ("0123456789abcdef"). -/
def hex (n : Nat) : Nat := if n < 10 then 0x30 + n else 0x61 + (n - 10)

/-- What `appendString` writes for a byte below `RuneSelf` that is not in
`htmlSafeSet`: a two-character escape for the backslash, the double quote and
the control characters \b \f \n \r \t, and `\u00XX` for the rest.  (Go
releases before 1.22 write \b and \f as `\u0008` and `\u000c`; the decoder
reads both forms as the same byte.) -/
def escapeByte (b : Nat) : GoString :=
  if b = 0x5C ∨ b = 0x22 then [0x5C, b]
  else if b = 0x08 then [0x5C, 0x62]
  else if b = 0x0C then [0x5C, 0x66]
  else if b = 0x0A then [0x5C, 0x6E]
  else if b = 0x0D then [0x5C, 0x72]
  else if b = 0x09 then [0x5C, 0x74]
  else [0x5C, 0x75, 0x30, 0x30, hex (b / 16), hex (b % 16)]

/-- The loop of `appendString` with `escapeHTML` set, over the bytes still to
encode.  The source copies the unescaped stretches `src[start:i]` in one go;
here each byte is written as it is passed. -/
def appendStringLoop : Nat → GoString → GoString
  | _, [] => []
  | 0, _ :: _ => []
  | fuel + 1, b :: rest =>
    if b < RuneSelf then
      if htmlSafeSet b then b :: appendStringLoop fuel rest
      else escapeByte b ++ appendStringLoop fuel rest
    else
      let d := DecodeRune ((b :: rest).take UTFMax)
      if d.1 = RuneError ∧ d.2 = 1 then
        ascii "\\ufffd" ++ appendStringLoop fuel rest
      else if d.1 = 0x2028 ∨ d.1 = 0x2029 then
        ascii "\\u202" ++ [hex (d.1 % 16)] ++ appendStringLoop fuel ((b :: rest).drop d.2)
      else (b :: rest).take d.2 ++ appendStringLoop fuel ((b :: rest).drop d.2)

/-- The function `appendString` of encoding/json with `escapeHTML` set: the
JSON string literal for `src`, quotes included. -/
def appendString (src : GoString) : GoString :=
  [0x22] ++ appendStringLoop src.length src ++ [0x22]

/-- The struct encoder of encoding/json on a `formInput`: the four fields in
declaration order, each as its quoted key, a colon and the string literal. -/
def encodeStruct (f : formInput) : GoString :=
  ascii "\x7b\"first_name\":" ++ appendString f.FirstName ++
  ascii ",\"last_name\":" ++ appendString f.LastName ++
  ascii ",\"email\":" ++ appendString f.Email ++
  ascii ",\"phone_number\":" ++ appendString f.PhoneNumber ++ ascii "\x7d"

/-- The element loop of the slice encoder: a comma before every element but
the first. -/
def encodeElems : List formInput → GoString
  | [] => []
  | [f] => encodeStruct f
  | f :: g :: rest => encodeStruct f ++ [0x2C] ++ encodeElems (g :: rest)

/-- The function `json.Marshal` on a `[]formInput` (also through a non-nil
pointer to one): `null` for the nil slice, otherwise the array of the
elements.  Marshal cannot fail on this type. -/
def Marshal : formSlice → GoString
  | none => ascii "null"
  | some l => [0x5B] ++ encodeElems l ++ [0x5D]

/-! ## encoding/json: unquoting a string literal -/

/-- The value of a hexadecimal digit, as in the loop of `getu4`. -/
def hexDigit (c : Nat) : Option Nat :=
  if 0x30 ≤ c ∧ c ≤ 0x39 then some (c - 0x30)
  else if 0x61 ≤ c ∧ c ≤ 0x66 then some (c - 0x61 + 10)
  else if 0x41 ≤ c ∧ c ≤ 0x46 then some (c - 0x41 + 10)
  else none

/-- The function `getu4`: the rune of a `\uXXXX` escape at the start of `s`;
`none` stands for the result -1. -/
def getu4 (s : GoString) : Option Nat :=
  match s with
  | b0 :: b1 :: c0 :: c1 :: c2 :: c3 :: _ =>
    if b0 ≠ 0x5C ∨ b1 ≠ 0x75 then none
    else
      match hexDigit c0, hexDigit c1, hexDigit c2, hexDigit c3 with
      | some d0, some d1, some d2, some d3 => some (((d0 * 16 + d1) * 16 + d2) * 16 + d3)
      | _, _, _, _ => none
  | _ => none

/-- The function `utf16.IsSurrogate`. -/
def IsSurrogate (r : Nat) : Bool := 0xD800 ≤ r && r < 0xE000

/-- The function `utf16.DecodeRune` on a first rune and the result of `getu4`
for the second (`none` is -1): the rune of a valid surrogate pair, U+FFFD
otherwise. -/
def utf16DecodeRune (r1 : Nat) (r2 : Option Nat) : Nat :=
  match r2 with
  | none => 0xFFFD
  | some r2 =>
    if 0xD800 ≤ r1 ∧ r1 < 0xDC00 ∧ 0xDC00 ≤ r2 ∧ r2 < 0xE000 then
      (r1 - 0xD800) * 1024 + (r2 - 0xDC00) + 0x10000
    else 0xFFFD

/-- The first loop of `unquoteBytes`: the number of leading bytes of `s` that
need no unquoting (no backslash, quote or control character, no invalid
UTF-8). -/
def unquoteScan : Nat → GoString → Nat
  | _, [] => 0
  | 0, _ :: _ => 0
  | fuel + 1, c :: rest =>
    if c = 0x5C ∨ c = 0x22 ∨ c < 0x20 then 0
    else if c < RuneSelf then 1 + unquoteScan fuel rest
    else
      let d := DecodeRune (c :: rest)
      if d.1 = RuneError ∧ d.2 = 1 then 0
      else d.2 + unquoteScan fuel ((c :: rest).drop d.2)

/-- One iteration of the second loop of `unquoteBytes`, at the byte `c`
followed by `rest`; `loop` stands for the remaining iterations, applied to
what this one leaves.  Escapes are resolved, other bytes are copied, invalid
UTF-8 is replaced by U+FFFD; `none` when the literal is malformed. -/
def unquoteStep (loop : GoString → Option GoString) (c : Nat) (rest : GoString) :
    Option GoString :=
  if c = 0x5C then
    match rest with
    | [] => none
    | e :: rest1 =>
      if e = 0x22 ∨ e = 0x5C ∨ e = 0x2F ∨ e = 0x27 then (loop rest1).map (fun t => e :: t)
      else if e = 0x62 then (loop rest1).map (fun t => 0x08 :: t)
      else if e = 0x66 then (loop rest1).map (fun t => 0x0C :: t)
      else if e = 0x6E then (loop rest1).map (fun t => 0x0A :: t)
      else if e = 0x72 then (loop rest1).map (fun t => 0x0D :: t)
      else if e = 0x74 then (loop rest1).map (fun t => 0x09 :: t)
      else if e = 0x75 then
        match getu4 (c :: rest) with
        | none => none
        | some rr =>
          let after := (c :: rest).drop 6
          if IsSurrogate rr then
            let dec := utf16DecodeRune rr (getu4 after)
            if dec ≠ 0xFFFD then (loop (after.drop 6)).map (fun t => EncodeRune dec ++ t)
            else (loop after).map (fun t => EncodeRune 0xFFFD ++ t)
          else (loop after).map (fun t => EncodeRune rr ++ t)
      else none
  else if c = 0x22 ∨ c < 0x20 then none
  else if c < RuneSelf then (loop rest).map (fun t => c :: t)
  else
    let d := DecodeRune (c :: rest)
    (loop ((c :: rest).drop d.2)).map (fun t => EncodeRune d.1 ++ t)

/-- The second loop of `unquoteBytes`, over the bytes from the first unusual
one on. -/
def unquoteLoop : Nat → GoString → Option GoString
  | _, [] => some []
  | 0, _ :: _ => none
  | fuel + 1, c :: rest => unquoteStep (unquoteLoop fuel) c rest

/-- The function `unquoteBytes`: the string a quoted JSON literal stands for. -/
def unquoteBytes (s : GoString) : Option GoString :=
  if s.length < 2 ∨ s.head? ≠ some 0x22 ∨ s.getLast? ≠ some 0x22 then none
  else
    let t := (s.drop 1).dropLast
    let r := unquoteScan t.length t
    if r = t.length then some t
    else (unquoteLoop t.length (t.drop r)).map (fun u => t.take r ++ u)

/-! ## encoding/json: the scanner (scanner.go) -/

/-- A `*json.SyntaxError`: either "invalid character c context" raised by
`scanner.error` for the byte `c`, or "unexpected end of JSON input"; `Offset`
is the number of bytes read before the error. -/
inductive SyntaxError where
  | invalidCharacter (c : Nat) (context : String) (Offset : Nat)
  | unexpectedEnd (Offset : Nat)
  deriving DecidableEq, Repr

/-- The state functions a scanner's `step` field can hold. -/
inductive stepState where
  | stateBeginValueOrEmpty | stateBeginValue | stateBeginStringOrEmpty | stateBeginString
  | stateEndValue | stateEndTop | stateInString | stateInStringEsc | stateInStringEscU
  | stateInStringEscU1 | stateInStringEscU12 | stateInStringEscU123
  | stateNeg | state1 | state0 | stateDot | stateDot0 | stateE | stateESign | stateE0
  | stateT | stateTr | stateTru | stateF | stateFa | stateFal | stateFals
  | stateN | stateNu | stateNul | stateError
  deriving DecidableEq, Repr

/-- The struct `scanner`.  `parseState` is the stack of the source with its
top (the last element of the Go slice) first. -/
structure scanner where
  step : stepState
  endTop : Bool
  parseState : List Nat
  err : Option SyntaxError
  bytes : Nat
  deriving DecidableEq, Repr

/-- The parse state `parseObjectKey`: parsing an object key (before the colon). -/
def parseObjectKey : Nat := 0

/-- The parse state `parseObjectValue`: parsing an object value (after the colon). -/
def parseObjectValue : Nat := 1

/-- The parse state `parseArrayValue`: parsing an array value. -/
def parseArrayValue : Nat := 2

/-- The constant `maxNestingDepth`. -/
def maxNestingDepth : Nat := 10000

/-- The method `scanner.reset`. -/
def reset : scanner :=
  { step := .stateBeginValue, endTop := false, parseState := [], err := none, bytes := 0 }

/-- The method `scanner.error`: record a syntax error and switch to
`stateError`. -/
def scanner.error (s : scanner) (c : Nat) (context : String) : scanner :=
  { s with step := .stateError, err := some (.invalidCharacter c context s.bytes) }

/-- The method `scanner.pushParseState`, with the step state already set by
the caller. -/
def scanner.pushParseState (s : scanner) (c : Nat) (newParseState : Nat) : scanner :=
  let s1 := { s with parseState := newParseState :: s.parseState }
  if s1.parseState.length ≤ maxNestingDepth then s1 else s1.error c "exceeded max depth"

/-- The method `scanner.popParseState`. -/
def scanner.popParseState (s : scanner) : scanner :=
  let ps := s.parseState.tail
  if ps.length = 0 then { s with parseState := ps, step := .stateEndTop, endTop := true }
  else { s with parseState := ps, step := .stateEndValue }

/-- The function `isSpace`. -/
def isSpace (c : Nat) : Bool := c ≤ 0x20 && (c == 0x20 || c == 0x09 || c == 0x0D || c == 0x0A)

/-- The state function `stateEndTop`. -/
def stateEndTop (s : scanner) (c : Nat) : scanner :=
  if !isSpace c then s.error c "after top-level value" else s

/-- The state function `stateEndValue`. -/
def stateEndValue (s : scanner) (c : Nat) : scanner :=
  match s.parseState with
  | [] => stateEndTop { s with step := .stateEndTop, endTop := true } c
  | ps :: below =>
    if isSpace c then { s with step := .stateEndValue }
    else if ps = parseObjectKey then
      if c = 0x3A then { s with parseState := parseObjectValue :: below, step := .stateBeginValue }
      else s.error c "after object key"
    else if ps = parseObjectValue then
      if c = 0x2C then { s with parseState := parseObjectKey :: below, step := .stateBeginString }
      else if c = 0x7D then s.popParseState
      else s.error c "after object key:value pair"
    else if ps = parseArrayValue then
      if c = 0x2C then { s with step := .stateBeginValue }
      else if c = 0x5D then s.popParseState
      else s.error c "after array element"
    else s.error c ""

/-- The state function `stateBeginValue`. -/
def stateBeginValue (s : scanner) (c : Nat) : scanner :=
  if isSpace c then s
  else if c = 0x7B then
    scanner.pushParseState { s with step := .stateBeginStringOrEmpty } c parseObjectKey
  else if c = 0x5B then
    scanner.pushParseState { s with step := .stateBeginValueOrEmpty } c parseArrayValue
  else if c = 0x22 then { s with step := .stateInString }
  else if c = 0x2D then { s with step := .stateNeg }
  else if c = 0x30 then { s with step := .state0 }
  else if c = 0x74 then { s with step := .stateT }
  else if c = 0x66 then { s with step := .stateF }
  else if c = 0x6E then { s with step := .stateN }
  else if 0x31 ≤ c ∧ c ≤ 0x39 then { s with step := .state1 }
  else s.error c "looking for beginning of value"

/-- The state function `stateBeginValueOrEmpty`. -/
def stateBeginValueOrEmpty (s : scanner) (c : Nat) : scanner :=
  if isSpace c then s
  else if c = 0x5D then stateEndValue s c
  else stateBeginValue s c

/-- The state function `stateBeginString`. -/
def stateBeginString (s : scanner) (c : Nat) : scanner :=
  if isSpace c then s
  else if c = 0x22 then { s with step := .stateInString }
  else s.error c "looking for beginning of object key string"

/-- The state function `stateBeginStringOrEmpty`. -/
def stateBeginStringOrEmpty (s : scanner) (c : Nat) : scanner :=
  if isSpace c then s
  else if c = 0x7D then
    stateEndValue { s with parseState := parseObjectValue :: s.parseState.tail } c
  else stateBeginString s c

/-- The state function `stateInString`. -/
def stateInString (s : scanner) (c : Nat) : scanner :=
  if c = 0x22 then { s with step := .stateEndValue }
  else if c = 0x5C then { s with step := .stateInStringEsc }
  else if c < 0x20 then s.error c "in string literal"
  else s

/-- The state function `stateInStringEsc`. -/
def stateInStringEsc (s : scanner) (c : Nat) : scanner :=
  if c = 0x62 ∨ c = 0x66 ∨ c = 0x6E ∨ c = 0x72 ∨ c = 0x74 ∨ c = 0x5C ∨ c = 0x2F ∨ c = 0x22 then
    { s with step := .stateInString }
  else if c = 0x75 then { s with step := .stateInStringEscU }
  else s.error c "in string escape code"

/-- The test shared by `stateInStringEscU` to `stateInStringEscU123`: a
hexadecimal digit. -/
def isHex (c : Nat) : Bool :=
  (0x30 ≤ c && c ≤ 0x39) || (0x61 ≤ c && c ≤ 0x66) || (0x41 ≤ c && c ≤ 0x46)

/-- The state functions `stateInStringEscU`, `stateInStringEscU1`,
`stateInStringEscU12` and `stateInStringEscU123`, which differ in the state
they move to. -/
def stateInStringEscUn (next : stepState) (s : scanner) (c : Nat) : scanner :=
  if isHex c then { s with step := next }
  else s.error c "in \\u hexadecimal character escape"

/-- The state function `state0`. -/
def state0 (s : scanner) (c : Nat) : scanner :=
  if c = 0x2E then { s with step := .stateDot }
  else if c = 0x65 ∨ c = 0x45 then { s with step := .stateE }
  else stateEndValue s c

/-- The state function `state1`. -/
def state1 (s : scanner) (c : Nat) : scanner :=
  if 0x30 ≤ c ∧ c ≤ 0x39 then { s with step := .state1 }
  else state0 s c

/-- The state function `stateNeg`. -/
def stateNeg (s : scanner) (c : Nat) : scanner :=
  if c = 0x30 then { s with step := .state0 }
  else if 0x31 ≤ c ∧ c ≤ 0x39 then { s with step := .state1 }
  else s.error c "in numeric literal"

/-- The state function `stateDot`. -/
def stateDot (s : scanner) (c : Nat) : scanner :=
  if 0x30 ≤ c ∧ c ≤ 0x39 then { s with step := .stateDot0 }
  else s.error c "after decimal point in numeric literal"

/-- The state function `stateDot0`. -/
def stateDot0 (s : scanner) (c : Nat) : scanner :=
  if 0x30 ≤ c ∧ c ≤ 0x39 then s
  else if c = 0x65 ∨ c = 0x45 then { s with step := .stateE }
  else stateEndValue s c

/-- The state function `stateESign`. -/
def stateESign (s : scanner) (c : Nat) : scanner :=
  if 0x30 ≤ c ∧ c ≤ 0x39 then { s with step := .stateE0 }
  else s.error c "in exponent of numeric literal"

/-- The state function `stateE`. -/
def stateE (s : scanner) (c : Nat) : scanner :=
  if c = 0x2B ∨ c = 0x2D then { s with step := .stateESign }
  else stateESign s c

/-- The state function `stateE0`. -/
def stateE0 (s : scanner) (c : Nat) : scanner :=
  if 0x30 ≤ c ∧ c ≤ 0x39 then s
  else stateEndValue s c

/-- The state functions inside the literals `true`, `false` and `null`
(`stateT` to `stateNul`): the byte `want` moves to `next`. -/
def stateLit (want : Nat) (next : stepState) (context : String) (s : scanner) (c : Nat) :
    scanner :=
  if c = want then { s with step := next } else s.error c context

/-- One call `s.step(s, c)`: the state function held in `s.step` applied to
the byte `c`.  The opcode the call returns is not part of the model; the
error it reports is in `err`. -/
def scanner.call (s : scanner) (c : Nat) : scanner :=
  match s.step with
  | .stateBeginValueOrEmpty => stateBeginValueOrEmpty s c
  | .stateBeginValue => stateBeginValue s c
  | .stateBeginStringOrEmpty => stateBeginStringOrEmpty s c
  | .stateBeginString => stateBeginString s c
  | .stateEndValue => stateEndValue s c
  | .stateEndTop => stateEndTop s c
  | .stateInString => stateInString s c
  | .stateInStringEsc => stateInStringEsc s c
  | .stateInStringEscU => stateInStringEscUn .stateInStringEscU1 s c
  | .stateInStringEscU1 => stateInStringEscUn .stateInStringEscU12 s c
  | .stateInStringEscU12 => stateInStringEscUn .stateInStringEscU123 s c
  | .stateInStringEscU123 => stateInStringEscUn .stateInString s c
  | .stateNeg => stateNeg s c
  | .state1 => state1 s c
  | .state0 => state0 s c
  | .stateDot => stateDot s c
  | .stateDot0 => stateDot0 s c
  | .stateE => stateE s c
  | .stateESign => stateESign s c
  | .stateE0 => stateE0 s c
  | .stateT => stateLit 0x72 .stateTr "in literal true (expecting 'r')" s c
  | .stateTr => stateLit 0x75 .stateTru "in literal true (expecting 'u')" s c
  | .stateTru => stateLit 0x65 .stateEndValue "in literal true (expecting 'e')" s c
  | .stateF => stateLit 0x61 .stateFa "in literal false (expecting 'a')" s c
  | .stateFa => stateLit 0x6C .stateFal "in literal false (expecting 'l')" s c
  | .stateFal => stateLit 0x73 .stateFals "in literal false (expecting 's')" s c
  | .stateFals => stateLit 0x65 .stateEndValue "in literal false (expecting 'e')" s c
  | .stateN => stateLit 0x75 .stateNu "in literal null (expecting 'u')" s c
  | .stateNu => stateLit 0x6C .stateNul "in literal null (expecting 'l')" s c
  | .stateNul => stateLit 0x6C .stateEndValue "in literal null (expecting 'l')" s c
  | .stateError => s

/-- The body of the loop of `checkValid`: count the byte, then step. -/
def scanner.feed (s : scanner) (c : Nat) : scanner :=
  scanner.call { s with bytes := s.bytes + 1 } c

/-- The method `scanner.eof`, as the error it leaves in the scanner (`none`
when the input read so far is a complete JSON value). -/
def scanner.eof (s : scanner) : Option SyntaxError :=
  match s.err with
  | some e => some e
  | none =>
    if s.endTop then none
    else
      let s1 := s.call 0x20
      if s1.endTop then none
      else
        match s1.err with
        | some e => some e
        | none => some (.unexpectedEnd s1.bytes)

/-- The function `checkValid`: `none` when `data` is one valid JSON value,
otherwise the syntax error.  The source returns at the first step that
reports an error; here the scanner is fed to the end, which leaves the same
error because `stateError` ignores every further byte. -/
def checkValid (data : GoString) : Option SyntaxError :=
  (data.foldl scanner.feed reset).eof

/-! ## encoding/json: decoding into a `[]formInput` (decode.go)

`json.Unmarshal` first runs `checkValid` over the whole input and then walks
the bytes again, driven by the scanner.  On input that passed `checkValid`
the walk is determined by the next significant byte, which is how it is
written here: each function takes the input from the current position on and
returns what is left.  Where the source would `panic(phasePanicMsg)` (which
cannot happen on valid input) the result is `JsonError.phase`. -/

/-- The errors of `json.Unmarshal`.  An `UnmarshalTypeError` keeps its
`Value` field, the description of the JSON value that did not fit. -/
inductive JsonError where
  | syntaxError (e : SyntaxError)
  | unmarshalTypeError (Value : String)
  | phase
  deriving DecidableEq, Repr

/-- The call `d.scanWhile(scanSkipSpace)`: drop leading white space. -/
def skipSpace : GoString → GoString
  | [] => []
  | c :: rest => if isSpace c then skipSpace rest else c :: rest

/-- The string branch of `rescanLiteral`, from the byte after the opening
quote: the bytes up to and including the closing quote, and the rest.  A
backslash skips the byte after it. -/
def rescanString : GoString → GoString × GoString
  | [] => ([], [])
  | c :: rest =>
    if c = 0x22 then ([c], rest)
    else if c = 0x5C then
      match rest with
      | [] => ([c], [])
      | e :: rest1 =>
        let r := rescanString rest1
        (c :: e :: r.1, r.2)
    else
      let r := rescanString rest
      (c :: r.1, r.2)

/-- The bytes the number branch of `rescanLiteral` passes over. -/
def isNumberByte (c : Nat) : Bool :=
  (0x30 ≤ c && c ≤ 0x39) || c == 0x2E || c == 0x65 || c == 0x45 || c == 0x2B || c == 0x2D

/-- The method `rescanLiteral`, on the input from the first byte of a literal
on: the literal and the rest of the input. -/
def rescanLiteral (data : GoString) : GoString × GoString :=
  match data with
  | [] => ([], [])
  | c :: rest =>
    if c = 0x22 then
      let r := rescanString rest
      (c :: r.1, r.2)
    else if c = 0x74 then (data.take 4, data.drop 4)
    else if c = 0x66 then (data.take 5, data.drop 5)
    else if c = 0x6E then (data.take 4, data.drop 4)
    else (c :: rest.takeWhile isNumberByte, rest.dropWhile isNumberByte)

/-- The loop of `d.skip`: feed the scanner until the array or object that was
open when the loop started is closed; what is returned is the input after
it.  The scanner `s` holds only the parse states pushed since the start. -/
def skipLoop (s : scanner) : GoString → GoString
  | [] => []
  | c :: rest =>
    let s1 := s.call c
    if s1.parseState.length < 1 then rest else skipLoop s1 rest

/-- The method `d.value` on an invalid target (`reflect.Value{}`): pass over
one JSON value, a literal with `rescanLiteral`, an array or object with
`d.skip`. -/
def skipValue (data : GoString) : GoString :=
  match data with
  | [] => []
  | c :: rest =>
    if c = 0x5B ∨ c = 0x7B then skipLoop (reset.call c) rest
    else (rescanLiteral data).2

/-- The `Value` of the `UnmarshalTypeError` that `literalStore` saves for a
literal starting with byte `c` that is not `null` and does not fit the
target. -/
def literalKind (c : Nat) : String :=
  if c = 0x22 then "string"
  else if c = 0x74 ∨ c = 0x66 then "bool"
  else "number"

/-- The method `d.value` on a field of kind string holding `cur`: a string
literal is unquoted and stored, `null` leaves the field as it is, every other
value is an `UnmarshalTypeError`.  (The source saves the first such error and
goes on decoding; `Unmarshal` then returns that error, and `getData` drops
the decoded value.) -/
def valueString (data : GoString) (cur : GoString) : Except JsonError (GoString × GoString) :=
  match data with
  | [] => .error .phase
  | c :: _ =>
    if c = 0x5B then .error (.unmarshalTypeError "array")
    else if c = 0x7B then .error (.unmarshalTypeError "object")
    else
      let r := rescanLiteral data
      if c = 0x6E then .ok (cur, r.2)
      else if c = 0x22 then
        match unquoteBytes r.1 with
        | none => .error .phase
        | some t => .ok (t, r.2)
      else .error (.unmarshalTypeError (literalKind c))

/-- The function `foldRune` restricted to the runes whose simple-fold orbit
contains an ASCII letter: besides the lower-case letters (handled in
`foldName`) these are U+017F, which folds to `S`, and U+212A, which folds to
`K`.  Every other rune above 0x7F folds to a rune above 0x7F, so it is left
as it is: a key holding one matches no field name, all of which are ASCII. -/
def foldRune (r : Nat) : Nat :=
  if r = 0x17F then 0x53 else if r = 0x212A then 0x4B else r

/-- The loop of `foldName`: ASCII lower-case letters are upper-cased, other
runes are replaced by their fold representative. -/
def foldNameLoop : Nat → GoString → GoString
  | _, [] => []
  | 0, _ :: _ => []
  | fuel + 1, c :: rest =>
    if c < RuneSelf then
      (if 0x61 ≤ c ∧ c ≤ 0x7A then c - 0x20 else c) :: foldNameLoop fuel rest
    else
      let d := DecodeRune (c :: rest)
      EncodeRune (foldRune d.1) ++ foldNameLoop fuel ((c :: rest).drop d.2)

/-- The function `foldName`. -/
def foldName (s : GoString) : GoString := foldNameLoop s.length s

/-- The JSON names of the fields of `formInput`, in declaration order. -/
def fieldNames : List GoString :=
  [ascii "first_name", ascii "last_name", ascii "email", ascii "phone_number"]

/-- The field lookup of `d.object`: the index of the field whose name is
`key`, or failing that of the field whose folded name is the folded `key`. -/
def findField (key : GoString) : Option Nat :=
  match fieldNames.indexOf? key with
  | some i => some i
  | none => (fieldNames.map foldName).indexOf? (foldName key)

/-- The field of `v` with index `i`. -/
def getField (v : formInput) (i : Nat) : GoString :=
  match i with
  | 0 => v.FirstName
  | 1 => v.LastName
  | 2 => v.Email
  | _ => v.PhoneNumber

/-- The record `v` with the field of index `i` set to `t`. -/
def setField (v : formInput) (i : Nat) (t : GoString) : formInput :=
  match i with
  | 0 => { v with FirstName := t }
  | 1 => { v with LastName := t }
  | 2 => { v with Email := t }
  | _ => { v with PhoneNumber := t }

/-- The loop of `d.object` on a struct target `v`, from the byte after the
opening brace or after a comma: the decoded struct and the input after the
closing brace. -/
def objectLoop : Nat → GoString → formInput → Except JsonError (formInput × GoString)
  | 0, _, _ => .error .phase
  | fuel + 1, data, v =>
    match skipSpace data with
    | [] => .error .phase
    | c :: rest =>
      if c = 0x7D then .ok (v, rest)
      else if c ≠ 0x22 then .error .phase
      else
        let k := rescanLiteral (c :: rest)
        match unquoteBytes k.1 with
        | none => .error .phase
        | some key =>
          match skipSpace k.2 with
          | [] => .error .phase
          | c1 :: rest1 =>
            if c1 ≠ 0x3A then .error .phase
            else
              let stored : Except JsonError (formInput × GoString) :=
                match findField key with
                | some i =>
                  match valueString (skipSpace rest1) (getField v i) with
                  | .error e => .error e
                  | .ok r => .ok (setField v i r.1, r.2)
                | none => .ok (v, skipValue (skipSpace rest1))
              match stored with
              | .error e => .error e
              | .ok r =>
                match skipSpace r.2 with
                | [] => .error .phase
                | c2 :: rest2 =>
                  if c2 = 0x7D then .ok (r.1, rest2)
                  else if c2 = 0x2C then objectLoop fuel rest2 r.1
                  else .error .phase

/-- The zero value of `formInput`. -/
def formInput.zero : formInput := ⟨[], [], [], []⟩

/-- The method `d.value` on an element of the slice, a zero `formInput`: an
object is decoded field by field, `null` leaves the element zero, every other
value is an `UnmarshalTypeError`. -/
def valueStruct (data : GoString) : Except JsonError (formInput × GoString) :=
  match data with
  | [] => .error .phase
  | c :: rest =>
    if c = 0x7B then objectLoop data.length rest formInput.zero
    else if c = 0x5B then .error (.unmarshalTypeError "array")
    else if c = 0x6E then .ok (formInput.zero, (rescanLiteral data).2)
    else .error (.unmarshalTypeError (literalKind c))

/-- The loop of `d.array` on the slice target, from the byte after the opening
bracket or after a comma, with the elements decoded so far in `acc`: all the
elements and the input after the closing bracket. -/
def arrayLoop : Nat → GoString → List formInput → Except JsonError (List formInput × GoString)
  | 0, _, _ => .error .phase
  | fuel + 1, data, acc =>
    match skipSpace data with
    | [] => .error .phase
    | c :: rest =>
      if c = 0x5D then .ok (acc, rest)
      else
        match valueStruct (c :: rest) with
        | .error e => .error e
        | .ok r =>
          match skipSpace r.2 with
          | [] => .error .phase
          | c2 :: rest2 =>
            if c2 = 0x5D then .ok (acc ++ [r.1], rest2)
            else if c2 = 0x2C then arrayLoop fuel rest2 (acc ++ [r.1])
            else .error .phase

/-- The method `d.value` on the target of `getData`, a nil `[]formInput`
behind a pointer: an array gives a non-nil slice of its elements (empty for
`[]`), `null` leaves the slice nil, every other value is an
`UnmarshalTypeError`. -/
def valueSlice (data : GoString) : Except JsonError formSlice :=
  match skipSpace data with
  | [] => .error .phase
  | c :: rest =>
    if c = 0x5B then
      match arrayLoop data.length rest [] with
      | .error e => .error e
      | .ok r => .ok (some r.1)
    else if c = 0x7B then .error (.unmarshalTypeError "object")
    else if c = 0x6E then .ok none
    else .error (.unmarshalTypeError (literalKind c))

/-- The call `json.Unmarshal(data, &forms)` with `forms` a nil `[]formInput`:
the value of `forms` afterwards, or the error returned. -/
def Unmarshal (data : GoString) : Except JsonError formSlice :=
  match checkValid data with
  | some e => .error (.syntaxError e)
  | none => valueSlice data

/-! ## main.go: errors, the data file, the handlers -/

/-- A Go `error` value of the program: one made by `errors.New`, a JSON error
from `json.Unmarshal`, or an error of another library call (`ioutil.ReadFile`,
`ioutil.WriteFile`, `req.ParseForm`), which is kept as the text its `Error`
method returns. -/
inductive GoError where
  | errorString (s : GoString)
  | json (e : JsonError)
  | other (text : GoString)
  deriving DecidableEq, Repr

/-- The method `Error` of an error value.  The wording of the JSON errors
belongs to encoding/json and is a parameter, `jsonText`. -/
def GoError.Error (jsonText : JsonError → GoString) : GoError → GoString
  | .errorString s => s
  | .json e => jsonText e
  | .other text => text

/-- The method `formInput.validate` (main.go, lines 33-38). -/
def formInput.validate (f : formInput) : Option GoError :=
  if f.FirstName = [] ∨ f.LastName = [] ∨ f.Email = [] ∨ f.PhoneNumber = [] then
    some (.errorString (ascii "invalid input"))
  else none

/-- The constant `dataFile`. -/
def dataFile : GoString := ascii "data/forms.json"

/-- What `ioutil.WriteFile` does when it is called during a request: it
succeeds; or opening the file fails, which leaves the file as it was; or the
file is opened (and so truncated) and the write or the close fails after
`written` bytes. -/
inductive WriteOutcome where
  | success
  | openFails (text : GoString)
  | writeFails (text : GoString) (written : Nat)
  deriving DecidableEq, Repr

/-- How the operating system answers the file operations of one request:
`readFails = some text` makes `ioutil.ReadFile` fail with that error text
(permission denied, an I/O error); `write` is the outcome of
`ioutil.WriteFile`. -/
structure FileOps where
  readFails : Option GoString
  write : WriteOutcome
  deriving DecidableEq, Repr

/-- File operations that all succeed. -/
def FileOps.fine : FileOps := ⟨none, .success⟩

/-- The state of the data file `data/forms.json`: `none` when it does not
exist, otherwise its bytes. -/
abbrev Disk := Option GoString

/-- The call `ioutil.ReadFile(dataFile)`. -/
def ReadFile (ops : FileOps) (disk : Disk) : Except GoError GoString :=
  match ops.readFails with
  | some text => .error (.other text)
  | none =>
    match disk with
    | none => .error (.other (ascii "open " ++ dataFile ++ ascii ": no such file or directory"))
    | some file => .ok file

/-- The call `ioutil.WriteFile(dataFile, data, os.ModeAppend)`: the error
returned and the file afterwards.  WriteFile opens the file with
`O_WRONLY|O_CREATE|O_TRUNC`; its third argument only gives the permission
bits of a file it creates, so `os.ModeAppend` does not make the write an
append. -/
def WriteFile (ops : FileOps) (disk : Disk) (data : GoString) : Option GoError × Disk :=
  match ops.write with
  | .success => (none, some data)
  | .openFails text => (some (.other text), disk)
  | .writeFails text written => (some (.other text), some (data.take written))

/-- The function `getData` (main.go, lines 40-51). -/
def getData (ops : FileOps) (disk : Disk) : Except GoError formSlice :=
  match ReadFile ops disk with
  | .error err => .error err
  | .ok file =>
    match Unmarshal file with
    | .error err => .error (.json err)
    | .ok forms => .ok forms

/-- The method `formInput.save` (main.go, lines 53-67): the error returned and
the file afterwards. -/
def formInput.save (f : formInput) (ops : FileOps) (disk : Disk) : Option GoError × Disk :=
  match getData ops disk with
  | .error err => (some err, disk)
  | .ok formDatas =>
    let forms : formSlice := some (formDatas.elems ++ [f])
    let toSave := Marshal forms
    WriteFile ops disk toSave

/-- What the handler reads of a `*http.Request`: the method, the error
`req.ParseForm()` returns, and the form values it leaves in `req.Form`. -/
structure Request where
  Method : GoString
  parseFormErr : Option GoError
  Form : List (GoString × List GoString)
  deriving DecidableEq, Repr

/-- The method `req.FormValue` after `ParseForm`: the first value for `key`,
the empty string when there is none. -/
def Request.FormValue (req : Request) (key : GoString) : GoString :=
  match req.Form.lookup key with
  | some (v :: _) => v
  | _ => []

/-- What the handler writes to the `http.ResponseWriter`: the status given to
`WriteHeader` and the bytes written after it. -/
structure Response where
  status : Nat
  body : GoString
  deriving DecidableEq, Repr

/-- The constant `http.StatusOK`. -/
def StatusOK : Nat := 200

/-- The constant `http.StatusBadRequest`. -/
def StatusBadRequest : Nat := 400

/-- The constant `http.StatusNotFound`. -/
def StatusNotFound : Nat := 404

/-- The constant `http.StatusInternalServerError`. -/
def StatusInternalServerError : Nat := 500

/-- The record `handleFunc` builds from the form values (main.go, lines
80-85). -/
def Request.record (req : Request) : formInput :=
  { FirstName := req.FormValue (ascii "first_name")
    LastName := req.FormValue (ascii "last_name")
    Email := req.FormValue (ascii "email")
    PhoneNumber := req.FormValue (ascii "phone_number") }

/-- The function `handleFunc` (main.go, lines 69-115): the response and the
data file afterwards.  `json.NewEncoder(resp).Encode` writes the JSON text
followed by a newline. -/
def handleFunc (jsonText : JsonError → GoString) (ops : FileOps) (req : Request) (disk : Disk) :
    Response × Disk :=
  if req.Method = ascii "POST" then
    match req.parseFormErr with
    | some err => (⟨StatusBadRequest, err.Error jsonText⟩, disk)
    | none =>
      let f := req.record
      match f.validate with
      | some err => (⟨StatusBadRequest, err.Error jsonText⟩, disk)
      | none =>
        match f.save ops disk with
        | (some err, disk1) => (⟨StatusInternalServerError, err.Error jsonText⟩, disk1)
        | (none, disk1) => (⟨StatusOK, ascii "form saved "⟩, disk1)
  else if req.Method = ascii "GET" then
    match getData ops disk with
    | .error err => (⟨StatusInternalServerError, err.Error jsonText⟩, disk)
    | .ok formDatas => (⟨StatusOK, Marshal formDatas ++ [0x0A]⟩, disk)
  else (⟨StatusNotFound, ascii "not found"⟩, disk)

/-- The function `bodyAllowedForStatus` of net/http: whether a response with
this status may carry a body. -/
def bodyAllowedForStatus (status : Nat) : Bool :=
  if 100 ≤ status ∧ status ≤ 199 then false
  else if status = 204 then false
  else if status = 304 then false
  else true

/-- The method `Write` of net/http's `chunkWriter`, through which the server
sends every byte a handler writes to its `http.ResponseWriter`: the bytes that
reach the client.  For a request whose method is HEAD it eats the writes. -/
def chunkWriter.Write (method : GoString) (p : GoString) : GoString :=
  if method = ascii "HEAD" then [] else p

/-- The server that `run` starts (main.go, lines 123-152), answering a request
it has read whose path is `/`: the response the client receives and the data
file afterwards.  The route `/` is registered on the router without a method
matcher, so `handleFunc` is called whatever the method; the status goes out
as the handler gave it to `WriteHeader`, and the bytes the handler wrote pass
through the `http.ResponseWriter` of the server, which refuses them for a
status that allows no body and drops them for a HEAD request. -/
def run (jsonText : JsonError → GoString) (ops : FileOps) (req : Request) (disk : Disk) :
    Response × Disk :=
  let r := handleFunc jsonText ops req disk
  (⟨r.1.status,
    if bodyAllowedForStatus r.1.status then chunkWriter.Write req.Method r.1.body else []⟩, r.2)

/-- Requests handled one after the other, each with its own file-operation
outcomes: the data file after the last one. -/
def serve (jsonText : JsonError → GoString) : List (FileOps × Request) → Disk → Disk
  | [], disk => disk
  | (ops, req) :: rest, disk => serve jsonText rest (handleFunc jsonText ops req disk).2

/-- The records of the POST requests of a run that were answered with status
200, in the order of the requests. -/
def accepted (jsonText : JsonError → GoString) : List (FileOps × Request) → Disk → List formInput
  | [], _ => []
  | (ops, req) :: rest, disk =>
    let r := handleFunc jsonText ops req disk
    (if req.Method = ascii "POST" ∧ r.1.status = StatusOK then [req.record] else []) ++
      accepted jsonText rest r.2

/-- No POST request of the run was answered with status 500: every
submission was either saved or rejected. -/
def noFailedPost (jsonText : JsonError → GoString) : List (FileOps × Request) → Disk → Bool
  | [], _ => true
  | (ops, req) :: rest, disk =>
    let r := handleFunc jsonText ops req disk
    !(req.Method = ascii "POST" ∧ r.1.status = StatusInternalServerError) &&
      noFailedPost jsonText rest r.2

/-! ## Sample requests and files -/

/-- A sample rendering of the JSON errors. -/
def sampleText (_ : JsonError) : GoString := ascii "json error"

/-- The data file holding the empty collection, `[]`. -/
def emptyStore : Disk := some (ascii "[]")

/-- A POST request whose form parsed and holds the four fields of `f`. -/
def postOf (f : formInput) : Request :=
  { Method := ascii "POST"
    parseFormErr := none
    Form := [(ascii "first_name", [f.FirstName]), (ascii "last_name", [f.LastName]),
      (ascii "email", [f.Email]), (ascii "phone_number", [f.PhoneNumber])] }

/-- A GET request. -/
def getRequest : Request := { Method := ascii "GET", parseFormErr := none, Form := [] }

/-- A PUT request. -/
def putRequest : Request := { Method := ascii "PUT", parseFormErr := none, Form := [] }

/-- A HEAD request. -/
def headRequest : Request := { Method := ascii "HEAD", parseFormErr := none, Form := [] }

/-- The record of the end-to-end scenario of the specification. -/
def ada : formInput :=
  ⟨ascii "Ada", ascii "Lovelace", ascii "[email protected]", ascii "123"⟩

/-- A record whose first name is the single byte 0xFF, which is not valid
UTF-8 (sent as `first_name=%FF`). -/
def rawByte : formInput := ⟨[0xFF], ascii "Hopper", ascii "grace@example.org", ascii "456"⟩

/-- A POST request without `first_name` whose form has a malformed escape, so
that `ParseForm` fails (body `last_name=Lovelace&email=a%zz`). -/
def brokenForm : Request :=
  { Method := ascii "POST"
    parseFormErr := some (.other (ascii "invalid URL escape \"%zz\""))
    Form := [(ascii "last_name", [ascii "Lovelace"])] }

/-- File operations whose write fails right after the file was opened and
truncated. -/
def diskFull : FileOps := ⟨none, .writeFails (ascii "write data/forms.json: no space left on device") 0⟩

/-- A second valid record. -/
def grace : formInput := ⟨ascii "Grace", ascii "Hopper", ascii "grace@example.org", ascii "456"⟩

/-- File operations in which the data file cannot be opened for writing. -/
def readOnly : FileOps := ⟨none, .openFails (ascii "open data/forms.json: permission denied")⟩

/-- File operations in which the data file cannot be read. -/
def unreadable : FileOps := ⟨some (ascii "open data/forms.json: permission denied"), .success⟩

/-- A run with two accepted submissions among a submission whose form does
not parse, one with an empty field, two GETs (one of which cannot read the
file) and a PUT. -/
def sampleRun : List (FileOps × Request) :=
  [(FileOps.fine, postOf ada), (FileOps.fine, brokenForm), (unreadable, getRequest),
    (FileOps.fine, postOf ⟨ascii "Ada", ascii "Lovelace", [], ascii "123"⟩),
    (FileOps.fine, putRequest), (FileOps.fine, postOf grace), (FileOps.fine, getRequest)]

/-- A run with one accepted submission, one rejected for an empty field, and
one that fails because the file cannot be opened for writing. -/
def mixedRun : List (FileOps × Request) :=
  [(FileOps.fine, postOf ⟨ascii "Ada", ascii "Lovelace", [], ascii "123"⟩),
    (FileOps.fine, postOf ada), (readOnly, postOf grace), (FileOps.fine, putRequest)]

/-! ## Notions used in the statements -/

/-- A well-formed multi-byte UTF-8 sequence `bs` for the rune `r`: it decodes
to `r` whatever follows it, and `r` encodes to it. -/
def WellFormed (bs : GoString) (r : Nat) : Prop :=
  (∀ q, DecodeRune (bs ++ q) = (r, bs.length)) ∧ EncodeRune r = bs ∧
  2 ≤ bs.length ∧ bs.length ≤ 4 ∧ (∀ b ∈ bs, 0x80 ≤ b ∧ b < 0x100) ∧ 0x80 ≤ r ∧
  (r = 0xFFFD → bs.length = 3)

/-- What `appendString` writes between the quotes. -/
def strBody (s : GoString) : GoString := appendStringLoop s.length s

/-- What the second loop of `unquoteBytes` makes of the bytes `t`. -/
def unquoted (t : GoString) : Option GoString := unquoteLoop t.length t

/-- How many leading bytes of `t` the first loop of `unquoteBytes` passes. -/
def plainLength (t : GoString) : Nat := unquoteScan t.length t

/-- The scanner `s` after `n` more bytes that changed nothing else. -/
def scanner.advance (s : scanner) (n : Nat) : scanner := { s with bytes := s.bytes + n }

/-- Some array or object is still open in the scanner `s`. -/
def scanner.inside (s : scanner) : Prop := s.endTop = false ∧ s.parseState ≠ []

/-- What a step from a scanner with an open array or object leads to on the
byte `c`: the array or object is still open, or the step closed the last one
(which a white-space byte never does); and `stateError` comes with an error. -/
def scanner.after (r : scanner) (c : Nat) : Prop :=
  ((r.endTop = true ∧ r.step = .stateEndTop ∧ isSpace c = false) ∨ r.inside) ∧
  (r.step = .stateError → r.err ≠ none)

/-- The scanner has read a complete top-level value and nothing but white
space after it. -/
def scanner.closed (s : scanner) : Prop :=
  s.endTop = true ∧ s.step = .stateEndTop ∧ s.err = none

/-- The scanner has recorded an error. -/
def scanner.dead (s : scanner) : Prop := s.step = .stateError ∧ s.err ≠ none

/-- What holds of a scanner once the first byte of a top-level array or
object is read: the value is complete, or an error is recorded, or an array
or object is still open. -/
def scanner.sound (s : scanner) : Prop :=
  ((s.endTop = true ∧ (s.step = .stateEndTop ∨ s.step = .stateError)) ∨ s.inside) ∧
  (s.step = .stateError → s.err ≠ none)

/-- The record `f` with each field coerced to valid UTF-8. -/
def formInput.coerce (f : formInput) : formInput :=
  ⟨HonestAssessment.coerce f.FirstName, HonestAssessment.coerce f.LastName,
    HonestAssessment.coerce f.Email, HonestAssessment.coerce f.PhoneNumber⟩

/-- Every field of `f` is valid UTF-8 (`utf8.Valid`). -/
def formInput.utf8 (f : formInput) : Bool :=
  Valid f.FirstName && Valid f.LastName && Valid f.Email && Valid f.PhoneNumber

set_option maxRecDepth 100000

/-! ## unicode/utf8: decoding and encoding agree -/

theorem first_some {p0 sz lo hi : Nat} (h : first p0 = some (sz, lo, hi)) :
    (sz = 2 ∧ lo = 0x80 ∧ hi = 0xBF ∧ 0xC2 ≤ p0 ∧ p0 ≤ 0xDF) ∨
    (sz = 3 ∧ lo = 0xA0 ∧ hi = 0xBF ∧ p0 = 0xE0) ∨
    (sz = 3 ∧ lo = 0x80 ∧ hi = 0xBF ∧ 0xE1 ≤ p0 ∧ p0 ≤ 0xEF ∧ p0 ≠ 0xED) ∨
    (sz = 3 ∧ lo = 0x80 ∧ hi = 0x9F ∧ p0 = 0xED) ∨
    (sz = 4 ∧ lo = 0x90 ∧ hi = 0xBF ∧ p0 = 0xF0) ∨
    (sz = 4 ∧ lo = 0x80 ∧ hi = 0xBF ∧ 0xF1 ≤ p0 ∧ p0 ≤ 0xF3) ∨
    (sz = 4 ∧ lo = 0x80 ∧ hi = 0x8F ∧ p0 = 0xF4) := by
  unfold first at h
  split_ifs at h <;> simp only [Option.some.injEq, Prod.mk.injEq] at h
  all_goals (obtain ⟨rfl, rfl, rfl⟩ := h; simp; omega)

theorem first_size {p0 sz lo hi : Nat} (h : first p0 = some (sz, lo, hi)) :
    2 ≤ sz ∧ sz ≤ 4 ∧ 0x80 ≤ lo ∧ hi ≤ 0xBF ∧ 0xC2 ≤ p0 ∧ p0 ≤ 0xF4 := by
  rcases first_some h with h | h | h | h | h | h | h <;> omega

theorem first_two {p0 lo hi : Nat} (h : first p0 = some (2, lo, hi)) :
    lo = 0x80 ∧ hi = 0xBF ∧ 0xC2 ≤ p0 ∧ p0 ≤ 0xDF := by
  rcases first_some h with h | h | h | h | h | h | h <;> omega

theorem first_three {p0 lo hi : Nat} (h : first p0 = some (3, lo, hi)) :
    0xE0 ≤ p0 ∧ p0 ≤ 0xEF ∧ 0x80 ≤ lo ∧ hi ≤ 0xBF ∧ (p0 = 0xE0 → lo = 0xA0) ∧
    (p0 = 0xED → hi = 0x9F) := by
  rcases first_some h with h | h | h | h | h | h | h <;> omega

theorem first_four {p0 lo hi : Nat} (h : first p0 = some (4, lo, hi)) :
    0xF0 ≤ p0 ∧ p0 ≤ 0xF4 ∧ 0x80 ≤ lo ∧ hi ≤ 0xBF ∧ (p0 = 0xF0 → lo = 0x90) ∧
    (p0 = 0xF4 → hi = 0x8F) := by
  rcases first_some h with h | h | h | h | h | h | h <;> omega

theorem DecodeRune_ascii {p0 : Nat} (rest : GoString) (h : p0 < 0x80) :
    DecodeRune (p0 :: rest) = (p0, 1) := by
  simp [DecodeRune, RuneSelf, h]

theorem wellFormed_two {p0 b1 lo hi : Nat} (hf : first p0 = some (2, lo, hi)) (h1 : lo ≤ b1)
    (h1' : b1 ≤ hi) : WellFormed [p0, b1] ((p0 % 32) * 64 + b1 % 64) := by
  obtain ⟨rfl, rfl, h0, h0'⟩ := first_two hf
  refine ⟨fun q => ?_, ?_, by simp, by simp, ?_, by omega, by omega⟩
  · have : ¬ p0 < 128 := by omega
    have : ¬ (b1 < 128 ∨ 191 < b1) := by omega
    simp [DecodeRune, RuneSelf, hf, *]
  · have : ¬ (p0 % 32 * 64 + b1 % 64 ≤ 127) := by omega
    have : (p0 % 32 * 64 + b1 % 64 ≤ 2047) := by omega
    simp only [EncodeRune, *, if_true, if_false]
    congr 1
    · omega
    · congr 1; omega
  · intro b hb
    simp at hb
    omega

theorem wellFormed_three {p0 b1 b2 lo hi : Nat} (hf : first p0 = some (3, lo, hi))
    (h1 : lo ≤ b1) (h1' : b1 ≤ hi) (h2 : 0x80 ≤ b2) (h2' : b2 ≤ 0xBF) :
    WellFormed [p0, b1, b2] ((p0 % 16) * 4096 + (b1 % 64) * 64 + b2 % 64) := by
  have hs := first_three hf
  refine ⟨fun q => ?_, ?_, by simp, by simp, ?_, by omega, by intro; simp⟩
  · have : ¬ p0 < 128 := by omega
    have : ¬ (b1 < lo ∨ hi < b1) := by omega
    have : ¬ (b2 < 128 ∨ 191 < b2) := by omega
    simp [DecodeRune, RuneSelf, hf, *]
  · have : ¬ ((p0 % 16) * 4096 + (b1 % 64) * 64 + b2 % 64 ≤ 127) := by omega
    have : ¬ ((p0 % 16) * 4096 + (b1 % 64) * 64 + b2 % 64 ≤ 2047) := by omega
    have : ¬ (1114111 < (p0 % 16) * 4096 + (b1 % 64) * 64 + b2 % 64) := by omega
    have : ¬ (55296 ≤ (p0 % 16) * 4096 + (b1 % 64) * 64 + b2 % 64 ∧
        (p0 % 16) * 4096 + (b1 % 64) * 64 + b2 % 64 ≤ 57343) := by omega
    have : (p0 % 16) * 4096 + (b1 % 64) * 64 + b2 % 64 ≤ 65535 := by omega
    simp only [EncodeRune, MaxRune, *, if_true, if_false, false_or]
    congr 1
    · omega
    · congr 1
      · omega
      · congr 1; omega
  · intro b hb
    simp at hb
    omega

theorem wellFormed_four {p0 b1 b2 b3 lo hi : Nat} (hf : first p0 = some (4, lo, hi))
    (h1 : lo ≤ b1) (h1' : b1 ≤ hi) (h2 : 0x80 ≤ b2) (h2' : b2 ≤ 0xBF) (h3 : 0x80 ≤ b3)
    (h3' : b3 ≤ 0xBF) :
    WellFormed [p0, b1, b2, b3]
      ((p0 % 8) * 262144 + (b1 % 64) * 4096 + (b2 % 64) * 64 + b3 % 64) := by
  have hs := first_four hf
  refine ⟨fun q => ?_, ?_, by simp, by simp, ?_, by omega, by omega⟩
  · have : ¬ p0 < 128 := by omega
    have : ¬ (b1 < lo ∨ hi < b1) := by omega
    have : ¬ (b2 < 128 ∨ 191 < b2) := by omega
    have : ¬ (b3 < 128 ∨ 191 < b3) := by omega
    simp [DecodeRune, RuneSelf, hf, *]
  · have : ¬ ((p0 % 8) * 262144 + (b1 % 64) * 4096 + (b2 % 64) * 64 + b3 % 64 ≤ 127) := by
      omega
    have : ¬ ((p0 % 8) * 262144 + (b1 % 64) * 4096 + (b2 % 64) * 64 + b3 % 64 ≤ 2047) := by
      omega
    have : ¬ (1114111 < (p0 % 8) * 262144 + (b1 % 64) * 4096 + (b2 % 64) * 64 + b3 % 64) := by
      omega
    have : ¬ (55296 ≤ (p0 % 8) * 262144 + (b1 % 64) * 4096 + (b2 % 64) * 64 + b3 % 64 ∧
        (p0 % 8) * 262144 + (b1 % 64) * 4096 + (b2 % 64) * 64 + b3 % 64 ≤ 57343) := by omega
    have : ¬ ((p0 % 8) * 262144 + (b1 % 64) * 4096 + (b2 % 64) * 64 + b3 % 64 ≤ 65535) := by
      omega
    simp only [EncodeRune, MaxRune, *, if_true, if_false, false_or]
    congr 1
    · omega
    · congr 1
      · omega
      · congr 1
        · omega
        · congr 1; omega
  · intro b hb
    simp at hb
    omega

/-- A byte of 0x80 or more either fails to decode, or starts a well-formed
sequence. -/
theorem DecodeRune_multi (p0 : Nat) (rest : GoString) (h : ¬ p0 < 0x80) :
    DecodeRune (p0 :: rest) = (RuneError, 1) ∨
    ∃ bs r q, p0 :: rest = bs ++ q ∧ WellFormed bs r := by
  cases hf : first p0 with
  | none => left; simp [DecodeRune, RuneSelf, h, hf]
  | some t =>
    obtain ⟨sz, lo, hi⟩ := t
    have hs := first_size hf
    rcases rest with _ | ⟨b1, rest1⟩
    · left
      simp [DecodeRune, RuneSelf, h, hf]
    by_cases h1 : b1 < lo ∨ hi < b1
    · left; simp [DecodeRune, RuneSelf, h, hf, h1]
    by_cases hsz2 : sz = 2
    · subst hsz2
      exact Or.inr ⟨[p0, b1], _, rest1, rfl, wellFormed_two hf (by omega) (by omega)⟩
    rcases rest1 with _ | ⟨b2, rest2⟩
    · left
      simp [DecodeRune, RuneSelf, h, hf]
      omega
    by_cases h2 : b2 < 0x80 ∨ 0xBF < b2
    · left
      simp [DecodeRune, RuneSelf, h, hf, h1, h2]
      omega
    by_cases hsz3 : sz = 3
    · subst hsz3
      exact Or.inr ⟨[p0, b1, b2], _, rest2, rfl,
        wellFormed_three hf (by omega) (by omega) (by omega) (by omega)⟩
    have hsz4 : sz = 4 := by omega
    subst hsz4
    rcases rest2 with _ | ⟨b3, rest3⟩
    · left
      simp [DecodeRune, RuneSelf, h, hf]
    by_cases h3 : b3 < 0x80 ∨ 0xBF < b3
    · left
      simp [DecodeRune, RuneSelf, h, hf, h1, h2, h3]
    exact Or.inr ⟨[p0, b1, b2, b3], _, rest3, rfl,
      wellFormed_four hf (by omega) (by omega) (by omega) (by omega) (by omega) (by omega)⟩

theorem first_eq_two {p0 : Nat} (h : 0xC2 ≤ p0) (h' : p0 ≤ 0xDF) :
    first p0 = some (2, 0x80, 0xBF) := by
  simp [first, h, h']

theorem first_eq_three {p0 : Nat} (h : 0xE0 ≤ p0) (h' : p0 ≤ 0xEF) :
    first p0 = some (3, if p0 = 0xE0 then 0xA0 else 0x80, if p0 = 0xED then 0x9F else 0xBF) := by
  unfold first
  have h1 : ¬ (0xC2 ≤ p0 ∧ p0 ≤ 0xDF) := by omega
  rw [if_neg h1]
  by_cases h2 : p0 = 0xE0
  · subst h2; rfl
  · rw [if_neg h2, if_neg h2]
    by_cases h3 : p0 = 0xED
    · subst h3; rfl
    · have h4 : (0xE1 ≤ p0 ∧ p0 ≤ 0xEC) ∨ p0 = 0xEE ∨ p0 = 0xEF := by omega
      rw [if_pos h4, if_neg h3]

theorem first_eq_four {p0 : Nat} (h : 0xF0 ≤ p0) (h' : p0 ≤ 0xF4) :
    first p0 = some (4, if p0 = 0xF0 then 0x90 else 0x80, if p0 = 0xF4 then 0x8F else 0xBF) := by
  have : p0 = 0xF0 ∨ p0 = 0xF1 ∨ p0 = 0xF2 ∨ p0 = 0xF3 ∨ p0 = 0xF4 := by omega
  rcases this with rfl | rfl | rfl | rfl | rfl <;> rfl

/-- Whatever rune is encoded, the result is a single ASCII byte or a
well-formed sequence. -/
theorem EncodeRune_wellFormed (r : Nat) (h : 0x80 ≤ r) : ∃ r1, WellFormed (EncodeRune r) r1 := by
  unfold EncodeRune MaxRune
  have h0 : ¬ r ≤ 0x7F := by omega
  rw [if_neg h0]
  by_cases h1 : r ≤ 0x7FF
  · rw [if_pos h1]
    exact ⟨_, wellFormed_two (first_eq_two (by omega) (by omega)) (by omega) (by omega)⟩
  rw [if_neg h1]
  by_cases h2 : 0x10FFFF < r ∨ (0xD800 ≤ r ∧ r ≤ 0xDFFF)
  · rw [if_pos h2]
    exact ⟨_, wellFormed_three (@first_eq_three 0xEF (by omega) (by omega))
      (by simp) (by simp) (by omega) (by omega)⟩
  rw [if_neg h2]
  by_cases h3 : r ≤ 0xFFFF
  · rw [if_pos h3]
    refine ⟨_, wellFormed_three (first_eq_three (by omega) (by omega)) ?_ ?_ (by omega) (by omega)⟩
    · split_ifs <;> omega
    · split_ifs <;> omega
  · rw [if_neg h3]
    refine ⟨_, wellFormed_four (first_eq_four (by omega) (by omega)) ?_ ?_ (by omega) (by omega)
      (by omega) (by omega)⟩
    · split_ifs <;> omega
    · split_ifs <;> omega

theorem DecodeRune_size_pos (p0 : Nat) (rest : GoString) : 1 ≤ (DecodeRune (p0 :: rest)).2 := by
  by_cases h : p0 < 0x80
  · rw [DecodeRune_ascii rest h]
  · rcases DecodeRune_multi p0 rest h with h1 | ⟨bs, r, q, e, hw⟩
    · rw [h1]
    · rw [e, hw.1 q]
      have := hw.2.2.1
      simp only
      omega

theorem DecodeRune_take (p : GoString) : DecodeRune (p.take UTFMax) = DecodeRune p := by
  by_cases hl : p.length ≤ 4
  · rw [UTFMax, List.take_of_length_le hl]
  · rcases p with _ | ⟨a, _ | ⟨b, _ | ⟨c, _ | ⟨d, _ | ⟨e, rest⟩⟩⟩⟩⟩ <;>
      simp at hl
    simp only [UTFMax, List.take_succ_cons, List.take_zero, DecodeRune]
    cases hf : first a with
    | none => rfl
    | some t =>
      obtain ⟨sz, lo, hi⟩ := t
      have hs := first_size hf
      have e1 : ¬ ([a, b, c, d].length < sz) := by simp; omega
      have e2 : ¬ ((a :: b :: c :: d :: e :: rest).length < sz) := by simp; omega
      simp only [e1, e2, if_false]

theorem drop_decode_length (b : Nat) (rest : GoString) :
    ((b :: rest).drop (DecodeRune (b :: rest)).2).length ≤ rest.length := by
  have := DecodeRune_size_pos b rest
  simp only [List.length_drop, List.length_cons]
  omega

/-- Induction over a string rune by rune, as the loops of the encoder and
the decoder walk it: an ASCII byte, a byte that does not decode, or a
well-formed multi-byte sequence. -/
theorem string_induction {P : GoString → Prop} (nil : P [])
    (ascii : ∀ b rest, b < 0x80 → P rest → P (b :: rest))
    (invalid : ∀ b rest, ¬ b < 0x80 → DecodeRune (b :: rest) = (RuneError, 1) → P rest →
      P (b :: rest))
    (seq : ∀ bs r q, WellFormed bs r → P q → P (bs ++ q)) : ∀ s, P s := by
  have key : ∀ n, ∀ s : GoString, s.length ≤ n → P s := by
    intro n
    induction n with
    | zero =>
      intro s h
      have : s = [] := List.length_eq_zero.mp (by omega)
      subst this
      exact nil
    | succ n ih =>
      intro s h
      rcases s with _ | ⟨b, rest⟩
      · exact nil
      simp only [List.length_cons, Nat.add_le_add_iff_right] at h
      by_cases hb : b < 0x80
      · exact ascii b rest hb (ih rest h)
      rcases DecodeRune_multi b rest hb with h1 | ⟨bs, r, q, e, hw⟩
      · exact invalid b rest hb h1 (ih rest h)
      · rw [e]
        refine seq bs r q hw (ih q ?_)
        have hlen := congrArg List.length e
        have hbs := hw.2.2.1
        simp only [List.length_cons, List.length_append] at hlen
        omega
  exact fun s => key s.length s (le_refl _)

/-! ## encoding/json: the loops do not depend on spare fuel -/

theorem appendStringLoop_fuel_aux : ∀ (n f1 f2 : Nat) (s : GoString), s.length ≤ n →
    s.length ≤ f1 → s.length ≤ f2 → appendStringLoop f1 s = appendStringLoop f2 s := by
  intro n
  induction n with
  | zero =>
    intro f1 f2 s h _ _
    have : s = [] := List.length_eq_zero.mp (by omega)
    subst this
    cases f1 <;> cases f2 <;> rfl
  | succ n ih =>
    intro f1 f2 s h h1 h2
    rcases s with _ | ⟨b, rest⟩
    · cases f1 <;> cases f2 <;> rfl
    rcases f1 with _ | f1
    · simp at h1
    rcases f2 with _ | f2
    · simp at h2
    simp only [List.length_cons, Nat.add_le_add_iff_right] at h h1 h2
    have hd := drop_decode_length b rest
    simp only [appendStringLoop, DecodeRune_take]
    rw [ih f1 f2 rest h h1 h2, ih f1 f2 _ (by omega) (by omega) (by omega)]

theorem appendStringLoop_fuel {fuel : Nat} {s : GoString} (h : s.length ≤ fuel) :
    appendStringLoop fuel s = strBody s :=
  appendStringLoop_fuel_aux s.length fuel s.length s (le_refl _) h (le_refl _)

theorem strBody_nil : strBody [] = [] := rfl

theorem strBody_ascii (b : Nat) (rest : GoString) (h : b < 0x80) :
    strBody (b :: rest) = (if htmlSafeSet b then [b] else escapeByte b) ++ strBody rest := by
  simp only [strBody, List.length_cons, appendStringLoop, RuneSelf, h, if_true]
  split_ifs <;> simp

theorem strBody_invalid (b : Nat) (rest : GoString) (h : ¬ b < 0x80)
    (hd : DecodeRune (b :: rest) = (RuneError, 1)) :
    strBody (b :: rest) = ascii "\\ufffd" ++ strBody rest := by
  simp only [strBody, List.length_cons, appendStringLoop, RuneSelf, h, if_false,
    DecodeRune_take, hd, and_self, if_true]

theorem WellFormed.cons {bs : GoString} {r : Nat} (hw : WellFormed bs r) :
    ∃ b tl, bs = b :: tl ∧ ¬ b < 0x80 := by
  rcases bs with _ | ⟨b, tl⟩
  · have := hw.2.2.1
    simp at this
  · exact ⟨b, tl, rfl, by have := (hw.2.2.2.2.1 b (by simp)).1; omega⟩

theorem strBody_seq (bs : GoString) (r : Nat) (q : GoString) (hw : WellFormed bs r) :
    strBody (bs ++ q) =
      (if r = 0x2028 ∨ r = 0x2029 then ascii "\\u202" ++ [hex (r % 16)] else bs) ++ strBody q := by
  obtain ⟨b, tl, rfl, hb⟩ := hw.cons
  have hd := hw.1 q
  have hlen := hw.2.2.1
  simp only [List.cons_append, List.length_cons] at hd hlen ⊢
  have hne : ¬ (r = RuneError ∧ tl.length + 1 = 1) := by omega
  have e1 : List.drop (tl.length + 1) (b :: (tl ++ q)) = q := by simp
  have e2 : List.take (tl.length + 1) (b :: (tl ++ q)) = b :: tl := by simp
  have e3 : appendStringLoop (tl ++ q).length q = strBody q :=
    appendStringLoop_fuel (by simp)
  simp only [strBody, List.length_cons, appendStringLoop, RuneSelf, hb, if_false,
    DecodeRune_take, hd, hne, e1, e2, e3]
  split_ifs <;> simp [strBody]


theorem coerceLoop_fuel_aux : ∀ (n f1 f2 : Nat) (s : GoString), s.length ≤ n →
    s.length ≤ f1 → s.length ≤ f2 → coerceLoop f1 s = coerceLoop f2 s := by
  intro n
  induction n with
  | zero =>
    intro f1 f2 s h _ _
    have : s = [] := List.length_eq_zero.mp (by omega)
    subst this
    cases f1 <;> cases f2 <;> rfl
  | succ n ih =>
    intro f1 f2 s h h1 h2
    rcases s with _ | ⟨b, rest⟩
    · cases f1 <;> cases f2 <;> rfl
    rcases f1 with _ | f1
    · simp at h1
    rcases f2 with _ | f2
    · simp at h2
    simp only [List.length_cons, Nat.add_le_add_iff_right] at h h1 h2
    have hd := drop_decode_length b rest
    simp only [coerceLoop]
    rw [ih f1 f2 rest h h1 h2, ih f1 f2 _ (by omega) (by omega) (by omega)]

theorem coerceLoop_fuel {fuel : Nat} {s : GoString} (h : s.length ≤ fuel) :
    coerceLoop fuel s = coerce s :=
  coerceLoop_fuel_aux s.length fuel s.length s (le_refl _) h (le_refl _)

theorem coerce_nil : coerce [] = [] := rfl

theorem coerce_ascii (b : Nat) (rest : GoString) (h : b < 0x80) :
    coerce (b :: rest) = b :: coerce rest := by
  simp only [coerce, List.length_cons, coerceLoop, RuneSelf, h, if_true]

theorem coerce_invalid (b : Nat) (rest : GoString) (h : ¬ b < 0x80)
    (hd : DecodeRune (b :: rest) = (RuneError, 1)) :
    coerce (b :: rest) = [0xEF, 0xBF, 0xBD] ++ coerce rest := by
  simp only [coerce, List.length_cons, coerceLoop, RuneSelf, h, if_false, hd, and_self, if_true]

theorem coerce_seq (bs : GoString) (r : Nat) (q : GoString) (hw : WellFormed bs r) :
    coerce (bs ++ q) = bs ++ coerce q := by
  obtain ⟨b, tl, rfl, hb⟩ := hw.cons
  have hd := hw.1 q
  have hlen := hw.2.2.1
  simp only [List.cons_append, List.length_cons] at hd hlen ⊢
  have hne : ¬ (r = RuneError ∧ tl.length + 1 = 1) := by omega
  have e1 : List.drop (tl.length + 1) (b :: (tl ++ q)) = q := by simp
  have e2 : List.take (tl.length + 1) (b :: (tl ++ q)) = b :: tl := by simp
  have e3 : coerceLoop (tl ++ q).length q = coerce q := coerceLoop_fuel (by simp)
  simp only [coerce, List.length_cons, coerceLoop, RuneSelf, hb, if_false, hd, hne, e1, e2, e3]
  simp [coerce]

theorem validLoop_fuel_aux : ∀ (n f1 f2 : Nat) (s : GoString), s.length ≤ n →
    s.length ≤ f1 → s.length ≤ f2 → validLoop f1 s = validLoop f2 s := by
  intro n
  induction n with
  | zero =>
    intro f1 f2 s h _ _
    have : s = [] := List.length_eq_zero.mp (by omega)
    subst this
    cases f1 <;> cases f2 <;> rfl
  | succ n ih =>
    intro f1 f2 s h h1 h2
    rcases s with _ | ⟨b, rest⟩
    · cases f1 <;> cases f2 <;> rfl
    rcases f1 with _ | f1
    · simp at h1
    rcases f2 with _ | f2
    · simp at h2
    simp only [List.length_cons, Nat.add_le_add_iff_right] at h h1 h2
    have hd := drop_decode_length b rest
    simp only [validLoop]
    rw [ih f1 f2 rest h h1 h2, ih f1 f2 _ (by omega) (by omega) (by omega)]

theorem validLoop_fuel {fuel : Nat} {s : GoString} (h : s.length ≤ fuel) :
    validLoop fuel s = Valid s :=
  validLoop_fuel_aux s.length fuel s.length s (le_refl _) h (le_refl _)

theorem Valid_ascii (b : Nat) (rest : GoString) (h : b < 0x80) :
    Valid (b :: rest) = Valid rest := by
  simp only [Valid, List.length_cons, validLoop, RuneSelf, h, if_true]

theorem Valid_invalid (b : Nat) (rest : GoString) (h : ¬ b < 0x80)
    (hd : DecodeRune (b :: rest) = (RuneError, 1)) : Valid (b :: rest) = false := by
  simp only [Valid, List.length_cons, validLoop, RuneSelf, h, if_false, hd, and_self, if_true]

theorem Valid_seq (bs : GoString) (r : Nat) (q : GoString) (hw : WellFormed bs r) :
    Valid (bs ++ q) = Valid q := by
  obtain ⟨b, tl, rfl, hb⟩ := hw.cons
  have hd := hw.1 q
  have hlen := hw.2.2.1
  simp only [List.cons_append, List.length_cons] at hd hlen ⊢
  have hne : ¬ (r = RuneError ∧ tl.length + 1 = 1) := by omega
  have e1 : List.drop (tl.length + 1) (b :: (tl ++ q)) = q := by simp
  have e3 : validLoop (tl ++ q).length q = Valid q := validLoop_fuel (by simp)
  simp only [Valid, List.length_cons, validLoop, RuneSelf, hb, if_false, hd, hne, e1, e3]

/-- A string that `utf8.Valid` accepts is left as it is by the coercion. -/
theorem coerce_of_Valid : ∀ s : GoString, Valid s = true → coerce s = s := by
  intro s
  induction s using string_induction with
  | nil => intro _; rfl
  | ascii b rest hb ih =>
    intro h
    rw [Valid_ascii b rest hb] at h
    rw [coerce_ascii b rest hb, ih h]
  | invalid b rest hb hd ih =>
    intro h
    rw [Valid_invalid b rest hb hd] at h
    exact absurd h (by simp)
  | seq bs r q hw ih =>
    intro h
    rw [Valid_seq bs r q hw] at h
    rw [coerce_seq bs r q hw, ih h]

/-- The coercion always produces valid UTF-8. -/
theorem Valid_coerce : ∀ s : GoString, Valid (coerce s) = true := by
  intro s
  induction s using string_induction with
  | nil => rfl
  | ascii b rest hb ih => rw [coerce_ascii b rest hb, Valid_ascii b _ hb, ih]
  | invalid b rest hb hd ih =>
    rw [coerce_invalid b rest hb hd]
    have hw : WellFormed [0xEF, 0xBF, 0xBD] 0xFFFD :=
      wellFormed_three (@first_eq_three 0xEF (by omega) (by omega))
        (by simp) (by simp) (by omega) (by omega)
    rw [Valid_seq _ _ _ hw, ih]
  | seq bs r q hw ih => rw [coerce_seq bs r q hw, Valid_seq bs r _ hw, ih]

theorem coerce_eq_nil (s : GoString) : coerce s = [] ↔ s = [] := by
  constructor
  · intro h
    induction s using string_induction with
    | nil => rfl
    | ascii b rest hb _ => rw [coerce_ascii b rest hb] at h; simp at h
    | invalid b rest hb hd _ => rw [coerce_invalid b rest hb hd] at h; simp at h
    | seq bs r q hw _ =>
      rw [coerce_seq bs r q hw] at h
      obtain ⟨b, tl, rfl, _⟩ := hw.cons
      simp at h
  · rintro rfl; rfl

theorem unquoteStep_congr (l1 l2 : GoString → Option GoString) (c : Nat) (rest : GoString)
    (h : ∀ x : GoString, x.length ≤ rest.length → l1 x = l2 x) :
    unquoteStep l1 c rest = unquoteStep l2 c rest := by
  have hd := drop_decode_length c rest
  have e0 := h rest (le_refl _)
  have e1 := h _ hd
  have e2 := h ((c :: rest).drop 6) (by simp)
  have e3 := h (((c :: rest).drop 6).drop 6) (by simp)
  rcases rest with _ | ⟨e, rest1⟩
  · simp only [unquoteStep, e0, e1]
  · have e4 := h rest1 (by simp)
    simp only [unquoteStep, e0, e1, e2, e3, e4]

theorem unquoteLoop_fuel_aux : ∀ (n f1 f2 : Nat) (s : GoString), s.length ≤ n →
    s.length ≤ f1 → s.length ≤ f2 → unquoteLoop f1 s = unquoteLoop f2 s := by
  intro n
  induction n with
  | zero =>
    intro f1 f2 s h _ _
    have : s = [] := List.length_eq_zero.mp (by omega)
    subst this
    cases f1 <;> cases f2 <;> rfl
  | succ n ih =>
    intro f1 f2 s h h1 h2
    rcases s with _ | ⟨b, rest⟩
    · cases f1 <;> cases f2 <;> rfl
    rcases f1 with _ | f1
    · simp at h1
    rcases f2 with _ | f2
    · simp at h2
    simp only [List.length_cons, Nat.add_le_add_iff_right] at h h1 h2
    simp only [unquoteLoop]
    exact unquoteStep_congr _ _ b rest (fun x hx => ih f1 f2 x (by omega) (by omega) (by omega))

theorem unquoteLoop_fuel {fuel : Nat} {s : GoString} (h : s.length ≤ fuel) :
    unquoteLoop fuel s = unquoted s :=
  unquoteLoop_fuel_aux s.length fuel s.length s (le_refl _) h (le_refl _)

theorem unquoted_nil : unquoted [] = some [] := rfl

/-- One iteration of the second loop of `unquoteBytes` followed by the rest
of the loop. -/
theorem unquoted_cons (c : Nat) (rest : GoString) :
    unquoted (c :: rest) = unquoteStep unquoted c rest := by
  simp only [unquoted, List.length_cons, unquoteLoop]
  exact unquoteStep_congr _ _ c rest (fun x hx => unquoteLoop_fuel hx)

theorem unquoted_plain (c : Nat) (rest : GoString) (h1 : c ≠ 0x5C) (h2 : c ≠ 0x22)
    (h3 : 0x20 ≤ c) (h4 : c < 0x80) :
    unquoted (c :: rest) = (unquoted rest).map (fun t => c :: t) := by
  have h5 : ¬ (c = 0x22 ∨ c < 0x20) := by omega
  simp only [unquoted_cons, unquoteStep, h1, h5, RuneSelf, h4, if_true, if_false]

theorem unquoted_invalid (b : Nat) (rest : GoString) (h : ¬ b < 0x80)
    (hd : DecodeRune (b :: rest) = (RuneError, 1)) :
    unquoted (b :: rest) = (unquoted rest).map (fun t => [0xEF, 0xBF, 0xBD] ++ t) := by
  have h1 : b ≠ 0x5C := by omega
  have h5 : ¬ (b = 0x22 ∨ b < 0x20) := by omega
  simp only [unquoted_cons, unquoteStep, h1, h5, RuneSelf, h, if_false, hd, List.drop_succ_cons,
    List.drop_zero]
  rfl

theorem unquoted_seq (bs : GoString) (r : Nat) (q : GoString) (hw : WellFormed bs r) :
    unquoted (bs ++ q) = (unquoted q).map (fun t => bs ++ t) := by
  obtain ⟨b, tl, rfl, hb⟩ := hw.cons
  have hd := hw.1 q
  have henc := hw.2.1
  simp only [List.cons_append, List.length_cons] at hd ⊢
  have h1 : b ≠ 0x5C := by omega
  have h5 : ¬ (b = 0x22 ∨ b < 0x20) := by omega
  have e1 : List.drop (tl.length + 1) (b :: (tl ++ q)) = q := by simp
  simp only [unquoted_cons, unquoteStep, h1, h5, RuneSelf, hb, if_false, hd, e1, henc]
  rfl

theorem hexDigit_hex (n : Nat) (h : n < 16) : hexDigit (hex n) = some n := by
  have : n = 0 ∨ n = 1 ∨ n = 2 ∨ n = 3 ∨ n = 4 ∨ n = 5 ∨ n = 6 ∨ n = 7 ∨ n = 8 ∨ n = 9 ∨
      n = 10 ∨ n = 11 ∨ n = 12 ∨ n = 13 ∨ n = 14 ∨ n = 15 := by omega
  rcases this with rfl | rfl | rfl | rfl | rfl | rfl | rfl | rfl | rfl | rfl | rfl | rfl | rfl |
    rfl | rfl | rfl <;> rfl

theorem getu4_hex (a b c d : Nat) (x : GoString) (ha : a < 16) (hb : b < 16) (hc : c < 16)
    (hd : d < 16) :
    getu4 (0x5C :: 0x75 :: hex a :: hex b :: hex c :: hex d :: x) =
      some (((a * 16 + b) * 16 + c) * 16 + d) := by
  simp only [getu4, hexDigit_hex a ha, hexDigit_hex b hb, hexDigit_hex c hc, hexDigit_hex d hd]
  simp

theorem unquoted_u (a b c d : Nat) (x : GoString) (ha : a < 16) (hb : b < 16) (hc : c < 16)
    (hd : d < 16) (hs : IsSurrogate (((a * 16 + b) * 16 + c) * 16 + d) = false) :
    unquoted (0x5C :: 0x75 :: hex a :: hex b :: hex c :: hex d :: x) =
      (unquoted x).map (fun t => EncodeRune (((a * 16 + b) * 16 + c) * 16 + d) ++ t) := by
  simp only [unquoted_cons, unquoteStep, getu4_hex a b c d x ha hb hc hd, hs]
  simp

theorem unquoted_u00 (b : Nat) (x : GoString) (h : b < 0x80) :
    unquoted ([0x5C, 0x75, 0x30, 0x30, hex (b / 16), hex (b % 16)] ++ x) =
      (unquoted x).map (fun t => b :: t) := by
  have e := unquoted_u 0 0 (b / 16) (b % 16) x (by omega) (by omega) (by omega) (by omega)
    (by simp [IsSurrogate]; omega)
  have hr : ((0 * 16 + 0) * 16 + b / 16) * 16 + b % 16 = b := by omega
  have he : EncodeRune b = [b] := by
    have : b ≤ 127 := by omega
    simp [EncodeRune, this]
  rw [hr, he] at e
  exact e

theorem unquoted_escapeByte (b : Nat) (x : GoString) (h : b < 0x80) :
    unquoted (escapeByte b ++ x) = (unquoted x).map (fun t => b :: t) := by
  unfold escapeByte
  split_ifs with h1 h2 h3 h4 h5 h6
  · rcases h1 with rfl | rfl <;> simp [unquoted_cons, unquoteStep]
  · subst h2; simp [unquoted_cons, unquoteStep]
  · subst h3; simp [unquoted_cons, unquoteStep]
  · subst h4; simp [unquoted_cons, unquoteStep]
  · subst h5; simp [unquoted_cons, unquoteStep]
  · subst h6; simp [unquoted_cons, unquoteStep]
  · exact unquoted_u00 b x h


theorem htmlSafeSet_iff (b : Nat) :
    htmlSafeSet b = true ↔
      0x20 ≤ b ∧ b < 0x80 ∧ b ≠ 0x22 ∧ b ≠ 0x26 ∧ b ≠ 0x3C ∧ b ≠ 0x3E ∧ b ≠ 0x5C := by
  simp [htmlSafeSet, and_assoc]

/-- Unquoting what the encoder wrote between the quotes gives back the
string, coerced to valid UTF-8. -/
theorem unquoted_strBody : ∀ s : GoString, unquoted (strBody s) = some (coerce s) := by
  intro s
  induction s using string_induction with
  | nil => rfl
  | ascii b rest hb ih =>
    rw [strBody_ascii b rest hb, coerce_ascii b rest hb]
    split_ifs with hs
    · have := (htmlSafeSet_iff b).mp hs
      rw [List.singleton_append, unquoted_plain b _ (by omega) (by omega) (by omega) hb, ih]
      rfl
    · rw [unquoted_escapeByte b _ hb, ih]
      rfl
  | invalid b rest hb hd ih =>
    rw [strBody_invalid b rest hb hd, coerce_invalid b rest hb hd]
    have e := unquoted_u 15 15 15 13 (strBody rest) (by omega) (by omega) (by omega) (by omega)
      (by decide)
    have e2 : ascii "\\ufffd" ++ strBody rest =
        0x5C :: 0x75 :: hex 15 :: hex 15 :: hex 15 :: hex 13 :: strBody rest := by
      rfl
    rw [e2, e, ih]
    rfl
  | seq bs r q hw ih =>
    rw [strBody_seq bs r q hw, coerce_seq bs r q hw]
    split_ifs with hr
    · have e := unquoted_u 2 0 2 (r % 16) (strBody q) (by omega) (by omega) (by omega)
        (by omega) (by rcases hr with rfl | rfl <;> decide)
      have e2 : ascii "\\u202" ++ [hex (r % 16)] ++ strBody q =
          0x5C :: 0x75 :: hex 2 :: hex 0 :: hex 2 :: hex (r % 16) :: strBody q := by
        rfl
      have e3 : ((2 * 16 + 0) * 16 + 2) * 16 + r % 16 = r := by
        rcases hr with rfl | rfl <;> rfl
      rw [e2, e, ih, e3, hw.2.1]
      rfl
    · rw [unquoted_seq bs r _ hw, ih]
      rfl

theorem unquoteScan_fuel_aux : ∀ (n f1 f2 : Nat) (s : GoString), s.length ≤ n →
    s.length ≤ f1 → s.length ≤ f2 → unquoteScan f1 s = unquoteScan f2 s := by
  intro n
  induction n with
  | zero =>
    intro f1 f2 s h _ _
    have : s = [] := List.length_eq_zero.mp (by omega)
    subst this
    cases f1 <;> cases f2 <;> rfl
  | succ n ih =>
    intro f1 f2 s h h1 h2
    rcases s with _ | ⟨b, rest⟩
    · cases f1 <;> cases f2 <;> rfl
    rcases f1 with _ | f1
    · simp at h1
    rcases f2 with _ | f2
    · simp at h2
    simp only [List.length_cons, Nat.add_le_add_iff_right] at h h1 h2
    have hd := drop_decode_length b rest
    simp only [unquoteScan]
    rw [ih f1 f2 rest h h1 h2, ih f1 f2 _ (by omega) (by omega) (by omega)]

theorem unquoteScan_fuel {fuel : Nat} {s : GoString} (h : s.length ≤ fuel) :
    unquoteScan fuel s = plainLength s :=
  unquoteScan_fuel_aux s.length fuel s.length s (le_refl _) h (le_refl _)

theorem plainLength_ascii (c : Nat) (rest : GoString) (h : c < 0x80) :
    plainLength (c :: rest) =
      if c = 0x5C ∨ c = 0x22 ∨ c < 0x20 then 0 else 1 + plainLength rest := by
  simp only [plainLength, List.length_cons, unquoteScan, RuneSelf, h, if_true]

theorem plainLength_invalid (b : Nat) (rest : GoString) (h : ¬ b < 0x80)
    (hd : DecodeRune (b :: rest) = (RuneError, 1)) : plainLength (b :: rest) = 0 := by
  have h1 : ¬ (b = 0x5C ∨ b = 0x22 ∨ b < 0x20) := by omega
  simp only [plainLength, List.length_cons, unquoteScan, RuneSelf, h, h1, if_false, hd, and_self,
    if_true]

theorem plainLength_seq (bs : GoString) (r : Nat) (q : GoString) (hw : WellFormed bs r) :
    plainLength (bs ++ q) = bs.length + plainLength q := by
  obtain ⟨b, tl, rfl, hb⟩ := hw.cons
  have hd := hw.1 q
  have hlen := hw.2.2.1
  simp only [List.cons_append, List.length_cons] at hd hlen ⊢
  have h1 : ¬ (b = 0x5C ∨ b = 0x22 ∨ b < 0x20) := by omega
  have hne : ¬ (r = RuneError ∧ tl.length + 1 = 1) := by omega
  have e1 : List.drop (tl.length + 1) (b :: (tl ++ q)) = q := by simp
  have e3 : unquoteScan (tl ++ q).length q = plainLength q := unquoteScan_fuel (by simp)
  simp only [plainLength, List.length_cons, unquoteScan, RuneSelf, hb, h1, if_false, hd, hne, e1,
    e3]

/-- The two loops of `unquoteBytes` together do what the second loop does
from the start: the bytes the first loop passes are copied unchanged. -/
theorem unquoted_plainLength : ∀ t : GoString,
    plainLength t ≤ t.length ∧
    (unquoted (t.drop (plainLength t))).map (fun u => t.take (plainLength t) ++ u) =
      unquoted t := by
  intro t
  induction t using string_induction with
  | nil => exact ⟨le_refl _, rfl⟩
  | ascii b rest hb ih =>
    rw [plainLength_ascii b rest hb]
    split_ifs with h
    · simp
    · have h' : b ≠ 0x5C ∧ b ≠ 0x22 ∧ 0x20 ≤ b := by omega
      rw [unquoted_plain b rest h'.1 h'.2.1 h'.2.2 hb]
      refine ⟨by simp; omega, ?_⟩
      rw [← ih.2, Nat.add_comm 1]
      simp [Option.map_map, Function.comp_def]
  | invalid b rest hb hd ih =>
    rw [plainLength_invalid b rest hb hd]
    simp
  | seq bs r q hw ih =>
    rw [plainLength_seq bs r q hw, unquoted_seq bs r q hw]
    refine ⟨by simp; omega, ?_⟩
    rw [← ih.2]
    simp [Option.map_map, Function.comp_def, List.take_append, List.drop_append]

theorem unquoted_of_plain (t : GoString) (h : plainLength t = t.length) :
    unquoted t = some t := by
  have := (unquoted_plainLength t).2
  rw [h] at this
  simpa [unquoted_nil] using this.symm

/-- What `unquoteBytes` returns for a literal with both quotes in place. -/
theorem unquoteBytes_quoted (t : GoString) :
    unquoteBytes ([0x22] ++ t ++ [0x22]) = unquoted t := by
  have h1 : ¬ (([0x22] ++ t ++ [0x22]).length < 2 ∨ ([0x22] ++ t ++ [0x22]).head? ≠ some 0x22 ∨
      ([0x22] ++ t ++ [0x22]).getLast? ≠ some 0x22) := by
    have : ([0x22] ++ t ++ [0x22]).getLast? = some 0x22 := by
      rw [List.getLast?_append]
      rfl
    rw [this]
    simp
  have h2 : (([0x22] ++ t ++ [0x22]).drop 1).dropLast = t := by simp
  simp only [unquoteBytes, h1, if_false, h2]
  rw [unquoteScan_fuel (le_refl _), unquoteLoop_fuel (by simp)]
  split_ifs with h
  · exact (unquoted_of_plain t h).symm
  · exact (unquoted_plainLength t).2

/-- Reading back a string literal written by `appendString`. -/
theorem unquoteBytes_appendString (s : GoString) :
    unquoteBytes (appendString s) = some (coerce s) := by
  rw [appendString, ← strBody, unquoteBytes_quoted, unquoted_strBody]

theorem scanner.advance_advance (s : scanner) (n m : Nat) :
    (s.advance n).advance m = s.advance (n + m) := by
  simp [scanner.advance, Nat.add_assoc]

theorem scanner.advance_zero (s : scanner) : s.advance 0 = s := rfl

theorem isHex_hex (n : Nat) (h : n < 16) : isHex (hex n) = true := by
  have : n = 0 ∨ n = 1 ∨ n = 2 ∨ n = 3 ∨ n = 4 ∨ n = 5 ∨ n = 6 ∨ n = 7 ∨ n = 8 ∨ n = 9 ∨
      n = 10 ∨ n = 11 ∨ n = 12 ∨ n = 13 ∨ n = 14 ∨ n = 15 := by omega
  rcases this with rfl | rfl | rfl | rfl | rfl | rfl | rfl | rfl | rfl | rfl | rfl | rfl | rfl |
    rfl | rfl | rfl <;> rfl

theorem feed_plain (s : scanner) (c : Nat) (hs : s.step = .stateInString) (h1 : c ≠ 0x22)
    (h2 : c ≠ 0x5C) (h3 : 0x20 ≤ c) : s.feed c = s.advance 1 := by
  have h4 : ¬ c < 0x20 := by omega
  simp [scanner.feed, scanner.call, hs, stateInString, h1, h2, h4, scanner.advance]

theorem feed_all_plain (p : GoString) (h : ∀ c ∈ p, c ≠ 0x22 ∧ c ≠ 0x5C ∧ 0x20 ≤ c) :
    ∀ s : scanner, s.step = .stateInString → p.foldl scanner.feed s = s.advance p.length := by
  induction p with
  | nil => intro s _; rfl
  | cons c p ih =>
    intro s hs
    have hc := h c (by simp)
    rw [List.foldl_cons, feed_plain s c hs hc.1 hc.2.1 hc.2.2,
      ih (fun c hc => h c (by simp [hc])) _ (by simpa [scanner.advance] using hs),
      scanner.advance_advance, List.length_cons, Nat.add_comm]

theorem feed_escape (s : scanner) (e : Nat) (hs : s.step = .stateInString)
    (he : e = 0x62 ∨ e = 0x66 ∨ e = 0x6E ∨ e = 0x72 ∨ e = 0x74 ∨ e = 0x5C ∨ e = 0x2F ∨ e = 0x22) :
    [0x5C, e].foldl scanner.feed s = s.advance 2 := by
  simp [scanner.feed, scanner.call, hs, stateInString, stateInStringEsc, he, scanner.advance]

theorem feed_u (s : scanner) (a b c d : Nat) (hs : s.step = .stateInString) (ha : a < 16)
    (hb : b < 16) (hc : c < 16) (hd : d < 16) :
    [0x5C, 0x75, hex a, hex b, hex c, hex d].foldl scanner.feed s = s.advance 6 := by
  simp [scanner.feed, scanner.call, hs, stateInString, stateInStringEsc, stateInStringEscUn,
    isHex_hex, ha, hb, hc, hd, scanner.advance]

theorem feed_escapeByte (s : scanner) (b : Nat) (hs : s.step = .stateInString) (h : b < 0x80) :
    (escapeByte b).foldl scanner.feed s = s.advance (escapeByte b).length := by
  unfold escapeByte
  split_ifs with h1 h2 h3 h4 h5 h6
  · exact feed_escape s b hs (by omega)
  · exact feed_escape s _ hs (by simp)
  · exact feed_escape s _ hs (by simp)
  · exact feed_escape s _ hs (by simp)
  · exact feed_escape s _ hs (by simp)
  · exact feed_escape s _ hs (by simp)
  · exact feed_u s 0 0 (b / 16) (b % 16) hs (by omega) (by omega) (by omega) (by omega)

theorem advance_step (s : scanner) (n : Nat) : (s.advance n).step = s.step := rfl

/-- The scanner stays inside the string over what `appendString` writes
between the quotes. -/
theorem feed_strBody : ∀ (t : GoString) (s : scanner), s.step = .stateInString →
    (strBody t).foldl scanner.feed s = s.advance (strBody t).length := by
  intro t
  induction t using string_induction with
  | nil => intro s _; rfl
  | ascii b rest hb ih =>
    intro s hs
    rw [strBody_ascii b rest hb, List.foldl_append, List.length_append]
    split_ifs with hsafe
    · have := (htmlSafeSet_iff b).mp hsafe
      rw [feed_all_plain [b] (by simp; omega) s hs, ih _ (by rw [advance_step]; exact hs),
        scanner.advance_advance]
    · rw [feed_escapeByte s b hs hb, ih _ (by rw [advance_step]; exact hs),
        scanner.advance_advance]
  | invalid b rest hb hd ih =>
    intro s hs
    rw [strBody_invalid b rest hb hd, List.foldl_append, List.length_append]
    have e : ascii "\\ufffd" = [0x5C, 0x75, hex 15, hex 15, hex 15, hex 13] := rfl
    rw [e, feed_u s 15 15 15 13 hs (by omega) (by omega) (by omega) (by omega),
      ih _ (by rw [advance_step]; exact hs), scanner.advance_advance]
    rfl
  | seq bs r q hw ih =>
    intro s hs
    rw [strBody_seq bs r q hw, List.foldl_append, List.length_append]
    split_ifs with hr
    · have e : ascii "\\u202" ++ [hex (r % 16)] = [0x5C, 0x75, hex 2, hex 0, hex 2, hex (r % 16)] :=
        rfl
      rw [e, feed_u s 2 0 2 (r % 16) hs (by omega) (by omega) (by omega) (by omega),
        ih _ (by rw [advance_step]; exact hs), scanner.advance_advance]
      rfl
    · rw [feed_all_plain bs (fun c hc => by have := hw.2.2.2.2.1 c hc; omega) s hs,
        ih _ (by rw [advance_step]; exact hs), scanner.advance_advance]

theorem rescanString_plain (p x : GoString) (h : ∀ c ∈ p, c ≠ 0x22 ∧ c ≠ 0x5C) :
    rescanString (p ++ x) = (p ++ (rescanString x).1, (rescanString x).2) := by
  induction p with
  | nil => rfl
  | cons c p ih =>
    have hc := h c (by simp)
    rw [List.cons_append, rescanString.eq_def]
    simp only [hc.1, hc.2, if_false, ih (fun c hc => h c (by simp [hc]))]
    rfl

theorem rescanString_escape (e : Nat) (x : GoString) :
    rescanString ([0x5C, e] ++ x) = ([0x5C, e] ++ (rescanString x).1, (rescanString x).2) := by
  rw [List.cons_append, rescanString.eq_def]
  simp

theorem rescanString_quote (x : GoString) : rescanString (0x22 :: x) = ([0x22], x) := by
  rw [rescanString.eq_def]
  simp

theorem hex_plain (n : Nat) : hex n ≠ 0x22 ∧ hex n ≠ 0x5C := by
  unfold hex
  split_ifs <;> omega

theorem rescanString_u (a b c d : Nat) (x : GoString) :
    rescanString ([0x5C, 0x75, hex a, hex b, hex c, hex d] ++ x) =
      ([0x5C, 0x75, hex a, hex b, hex c, hex d] ++ (rescanString x).1, (rescanString x).2) := by
  have e : [0x5C, 0x75, hex a, hex b, hex c, hex d] ++ x =
      [0x5C, 0x75] ++ ([hex a, hex b, hex c, hex d] ++ x) := rfl
  rw [e, rescanString_escape, rescanString_plain _ x (by
    intro c hc
    simp at hc
    rcases hc with rfl | rfl | rfl | rfl <;> exact hex_plain _)]
  rfl

theorem rescanString_escapeByte (b : Nat) (x : GoString) :
    rescanString (escapeByte b ++ x) = (escapeByte b ++ (rescanString x).1, (rescanString x).2) := by
  unfold escapeByte
  split_ifs
  · exact rescanString_escape _ x
  · exact rescanString_escape _ x
  · exact rescanString_escape _ x
  · exact rescanString_escape _ x
  · exact rescanString_escape _ x
  · exact rescanString_escape _ x
  · exact rescanString_u 0 0 _ _ x

/-- The string branch of `rescanLiteral` ends a literal written by
`appendString` at its closing quote. -/
theorem rescanString_strBody : ∀ (t x : GoString),
    rescanString (strBody t ++ 0x22 :: x) = (strBody t ++ [0x22], x) := by
  intro t x
  induction t using string_induction with
  | nil => simp [strBody_nil, rescanString_quote]
  | ascii b rest hb ih =>
    rw [strBody_ascii b rest hb, List.append_assoc]
    split_ifs with hsafe
    · have := (htmlSafeSet_iff b).mp hsafe
      rw [rescanString_plain [b] _ (by simp; omega), ih]
      simp
    · rw [rescanString_escapeByte, ih]
      simp
  | invalid b rest hb hd ih =>
    rw [strBody_invalid b rest hb hd, List.append_assoc]
    have e : ascii "\\ufffd" = [0x5C, 0x75, hex 15, hex 15, hex 15, hex 13] := rfl
    rw [e, rescanString_u, ih]
    simp
  | seq bs r q hw ih =>
    rw [strBody_seq bs r q hw, List.append_assoc]
    split_ifs with hr
    · have e : ascii "\\u202" ++ [hex (r % 16)] = [0x5C, 0x75, hex 2, hex 0, hex 2, hex (r % 16)] :=
        rfl
      rw [e, rescanString_u, ih]
      simp
    · rw [rescanString_plain bs _ (fun c hc => by have := hw.2.2.2.2.1 c hc; omega), ih]
      simp

theorem rescanLiteral_appendString (t x : GoString) :
    rescanLiteral (appendString t ++ x) = (appendString t, x) := by
  have e : appendString t ++ x = 0x22 :: (strBody t ++ 0x22 :: x) := by
    simp [appendString, strBody]
  rw [e, rescanLiteral]
  simp only [if_true, rescanString_strBody]
  simp [appendString, strBody]

/-- The scanner reads a string literal written by `appendString` from any
state that accepts the opening quote, and ends after the closing quote. -/
theorem feed_appendString (t : GoString) (st : stepState) (et : Bool) (ps : List Nat)
    (err : Option SyntaxError) (n : Nat)
    (hst : st = .stateBeginValue ∨ st = .stateBeginString ∨ st = .stateBeginStringOrEmpty ∨
      st = .stateBeginValueOrEmpty) :
    (appendString t).foldl scanner.feed ⟨st, et, ps, err, n⟩ =
      ⟨.stateEndValue, et, ps, err, n + (appendString t).length⟩ := by
  have e : appendString t = [0x22] ++ (strBody t ++ [0x22]) := by
    simp [appendString, strBody]
  have h1 : scanner.feed ⟨st, et, ps, err, n⟩ 0x22 = ⟨.stateInString, et, ps, err, n + 1⟩ := by
    rcases hst with rfl | rfl | rfl | rfl <;> rfl
  rw [e]
  simp only [List.foldl_append, List.foldl_cons, List.foldl_nil, h1]
  rw [feed_strBody _ _ rfl]
  simp only [List.length_append, List.length_cons, List.length_nil, scanner.advance]
  simp only [scanner.feed, scanner.call, stateInString, if_true]
  simp only [scanner.mk.injEq, true_and]
  omega

theorem encodeStruct_eq (f : formInput) :
    encodeStruct f =
      [0x7B] ++ (appendString (ascii "first_name") ++ ([0x3A] ++ (appendString f.FirstName ++
      ([0x2C] ++ (appendString (ascii "last_name") ++ ([0x3A] ++ (appendString f.LastName ++
      ([0x2C] ++ (appendString (ascii "email") ++ ([0x3A] ++ (appendString f.Email ++
      ([0x2C] ++ (appendString (ascii "phone_number") ++ ([0x3A] ++
      (appendString f.PhoneNumber ++ [0x7D]))))))))))))))) := by
  have e1 : ascii "\x7b\"first_name\":" = [0x7B] ++ appendString (ascii "first_name") ++ [0x3A] := by
    rfl
  have e2 : ascii ",\"last_name\":" = [0x2C] ++ appendString (ascii "last_name") ++ [0x3A] := by
    rfl
  have e3 : ascii ",\"email\":" = [0x2C] ++ appendString (ascii "email") ++ [0x3A] := by rfl
  have e4 : ascii ",\"phone_number\":" =
      [0x2C] ++ appendString (ascii "phone_number") ++ [0x3A] := by rfl
  have e5 : ascii "\x7d" = [0x7D] := rfl
  rw [encodeStruct, e1, e2, e3, e4, e5]
  simp only [List.append_assoc]

/-- The scanner reads an encoded struct that is an element of the top-level
array. -/
theorem feed_encodeStruct (f : formInput) (st : stepState) (n : Nat)
    (hst : st = .stateBeginValue ∨ st = .stateBeginValueOrEmpty) :
    (encodeStruct f).foldl scanner.feed ⟨st, false, [parseArrayValue], none, n⟩ =
      ⟨.stateEndValue, false, [parseArrayValue], none, n + (encodeStruct f).length⟩ := by
  have h1 : scanner.feed ⟨st, false, [parseArrayValue], none, n⟩ 0x7B =
      ⟨.stateBeginStringOrEmpty, false, [parseObjectKey, parseArrayValue], none, n + 1⟩ := by
    rcases hst with rfl | rfl <;> rfl
  have hcolon : ∀ m, scanner.feed ⟨.stateEndValue, false, [parseObjectKey, parseArrayValue],
      none, m⟩ 0x3A = ⟨.stateBeginValue, false, [parseObjectValue, parseArrayValue], none, m + 1⟩ :=
    fun _ => rfl
  have hcomma : ∀ m, scanner.feed ⟨.stateEndValue, false, [parseObjectValue, parseArrayValue],
      none, m⟩ 0x2C = ⟨.stateBeginString, false, [parseObjectKey, parseArrayValue], none, m + 1⟩ :=
    fun _ => rfl
  have hclose : ∀ m, scanner.feed ⟨.stateEndValue, false, [parseObjectValue, parseArrayValue],
      none, m⟩ 0x7D = ⟨.stateEndValue, false, [parseArrayValue], none, m + 1⟩ :=
    fun _ => rfl
  rw [encodeStruct_eq]
  simp only [List.foldl_append, List.foldl_cons, List.foldl_nil, h1, hcolon, hcomma, hclose,
    feed_appendString _ _ _ _ _ _ (Or.inl rfl),
    feed_appendString _ _ _ _ _ _ (Or.inr (Or.inl rfl)),
    feed_appendString _ _ _ _ _ _ (Or.inr (Or.inr (Or.inl rfl)))]
  simp only [scanner.mk.injEq, true_and, List.length_append, List.length_cons, List.length_nil]
  omega

theorem feed_encodeElems : ∀ (l : List formInput) (f : formInput) (st : stepState) (n : Nat),
    st = .stateBeginValue ∨ st = .stateBeginValueOrEmpty →
    (encodeElems (f :: l)).foldl scanner.feed ⟨st, false, [parseArrayValue], none, n⟩ =
      ⟨.stateEndValue, false, [parseArrayValue], none, n + (encodeElems (f :: l)).length⟩ := by
  intro l
  induction l with
  | nil =>
    intro f st n hst
    exact feed_encodeStruct f st n hst
  | cons g l ih =>
    intro f st n hst
    have hcomma : ∀ m, scanner.feed ⟨.stateEndValue, false, [parseArrayValue], none, m⟩ 0x2C =
        ⟨.stateBeginValue, false, [parseArrayValue], none, m + 1⟩ := fun _ => rfl
    simp only [encodeElems, List.foldl_append, List.foldl_cons, List.foldl_nil,
      feed_encodeStruct f st n hst, hcomma, ih g _ _ (Or.inl rfl)]
    simp only [scanner.mk.injEq, true_and, List.length_append, List.length_cons, List.length_nil]
    omega

/-- The output of `json.Marshal` passes `checkValid`. -/
theorem checkValid_Marshal (v : formSlice) : checkValid (Marshal v) = none := by
  rcases v with _ | l
  · rfl
  rcases l with _ | ⟨f, l⟩
  · rfl
  have hopen : scanner.feed reset 0x5B =
      ⟨.stateBeginValueOrEmpty, false, [parseArrayValue], none, 1⟩ := rfl
  have hclose : ∀ m, scanner.feed ⟨.stateEndValue, false, [parseArrayValue], none, m⟩ 0x5D =
      ⟨.stateEndTop, true, [], none, m + 1⟩ := fun _ => rfl
  simp only [checkValid, Marshal, List.foldl_append, List.foldl_cons, List.foldl_nil, hopen,
    feed_encodeElems l f _ _ (Or.inr rfl), hclose]
  rfl

theorem appendString_cons (t : GoString) : appendString t = 0x22 :: (strBody t ++ [0x22]) := by
  simp [appendString, strBody]

theorem skipSpace_cons (c : Nat) (x : GoString) (h : isSpace c = false) :
    skipSpace (c :: x) = c :: x := by
  simp [skipSpace, h]

theorem skipSpace_quote (x : GoString) : skipSpace (0x22 :: x) = 0x22 :: x :=
  skipSpace_cons _ _ rfl

theorem skipSpace_colon (x : GoString) : skipSpace (0x3A :: x) = 0x3A :: x :=
  skipSpace_cons _ _ rfl

theorem skipSpace_comma (x : GoString) : skipSpace (0x2C :: x) = 0x2C :: x :=
  skipSpace_cons _ _ rfl

theorem skipSpace_rbrace (x : GoString) : skipSpace (0x7D :: x) = 0x7D :: x :=
  skipSpace_cons _ _ rfl

theorem skipSpace_lbrace (x : GoString) : skipSpace (0x7B :: x) = 0x7B :: x :=
  skipSpace_cons _ _ rfl

theorem skipSpace_rbracket (x : GoString) : skipSpace (0x5D :: x) = 0x5D :: x :=
  skipSpace_cons _ _ rfl

theorem skipSpace_lbracket (x : GoString) : skipSpace (0x5B :: x) = 0x5B :: x :=
  skipSpace_cons _ _ rfl

theorem valueString_appendString (t x cur : GoString) :
    valueString (appendString t ++ x) cur = .ok (coerce t, x) := by
  have e := rescanLiteral_appendString t x
  have e2 := unquoteBytes_appendString t
  rw [appendString_cons] at e ⊢
  simp only [List.cons_append] at e ⊢
  rw [valueString]
  simp only [e, ← appendString_cons, e2]
  simp

/-- One iteration of the loop of `d.object` over a member that the encoder
wrote and that is followed by a comma. -/
theorem objectLoop_member (fuel : Nat) (key val more : GoString) (v : formInput) (i : Nat)
    (hk : findField (coerce key) = some i) :
    objectLoop (fuel + 1) (appendString key ++ ([0x3A] ++ (appendString val ++ ([0x2C] ++ more))))
      v = objectLoop fuel more (setField v i (coerce val)) := by
  have e := rescanLiteral_appendString key ([0x3A] ++ (appendString val ++ ([0x2C] ++ more)))
  have e2 := unquoteBytes_appendString key
  have e3 := valueString_appendString val ([0x2C] ++ more) (getField v i)
  rw [appendString_cons key] at e ⊢
  rw [appendString_cons val] at e3
  simp only [List.cons_append, List.singleton_append, List.nil_append, List.append_assoc] at e e3 ⊢
  rw [objectLoop]
  simp only [skipSpace_quote, e]
  rw [appendString_cons key] at e2
  simp only [e2, skipSpace_colon, hk]
  rw [appendString_cons val]
  simp only [List.cons_append, List.append_assoc, List.singleton_append, List.nil_append,
    skipSpace_quote, e3, skipSpace_comma]
  simp

/-- The last iteration of the loop of `d.object`: a member that the encoder
wrote, followed by the closing brace. -/
theorem objectLoop_last (fuel : Nat) (key val rest : GoString) (v : formInput) (i : Nat)
    (hk : findField (coerce key) = some i) :
    objectLoop (fuel + 1) (appendString key ++ ([0x3A] ++ (appendString val ++ ([0x7D] ++ rest))))
      v = .ok (setField v i (coerce val), rest) := by
  have e := rescanLiteral_appendString key ([0x3A] ++ (appendString val ++ ([0x7D] ++ rest)))
  have e2 := unquoteBytes_appendString key
  have e3 := valueString_appendString val ([0x7D] ++ rest) (getField v i)
  rw [appendString_cons key] at e ⊢
  rw [appendString_cons val] at e3
  simp only [List.cons_append, List.singleton_append, List.nil_append, List.append_assoc] at e e3 ⊢
  rw [objectLoop]
  simp only [skipSpace_quote, e]
  rw [appendString_cons key] at e2
  simp only [e2, skipSpace_colon, hk]
  rw [appendString_cons val]
  simp only [List.cons_append, List.append_assoc, List.singleton_append, List.nil_append,
    skipSpace_quote, e3, skipSpace_rbrace]
  simp

theorem findField_keys :
    findField (coerce (ascii "first_name")) = some 0 ∧
    findField (coerce (ascii "last_name")) = some 1 ∧
    findField (coerce (ascii "email")) = some 2 ∧
    findField (coerce (ascii "phone_number")) = some 3 := by
  decide

/-- Decoding an encoded struct gives the struct with its fields coerced to
valid UTF-8. -/
theorem valueStruct_encodeStruct (f : formInput) (rest : GoString) :
    valueStruct (encodeStruct f ++ rest) = .ok (f.coerce, rest) := by
  have hlen : ∃ k, (encodeStruct f ++ rest).length = k + 4 := by
    refine ⟨(encodeStruct f ++ rest).length - 4, ?_⟩
    rw [encodeStruct_eq]
    simp only [List.length_cons, List.length_append, appendString]
    omega
  obtain ⟨k, hk⟩ := hlen
  rw [valueStruct.eq_def, hk]
  rw [encodeStruct_eq]
  simp only [List.singleton_append, List.cons_append, List.append_assoc, if_true,
    List.nil_append]
  show objectLoop (k + 3 + 1) _ _ = _
  have h := findField_keys
  have m1 := objectLoop_member (k + 3) (ascii "first_name") f.FirstName
  have m2 := objectLoop_member (k + 2) (ascii "last_name") f.LastName
  have m3 := objectLoop_member (k + 1) (ascii "email") f.Email
  have m4 := objectLoop_last k (ascii "phone_number") f.PhoneNumber
  simp only [List.singleton_append, List.cons_append, List.append_assoc, List.nil_append]
    at m1 m2 m3 m4
  rw [m1 _ _ _ h.1, m2 _ _ _ h.2.1, m3 _ _ _ h.2.2.1, m4 _ _ _ h.2.2.2]
  rfl

theorem length_le_encodeElems (l : List formInput) : l.length ≤ (encodeElems l).length := by
  induction l with
  | nil => simp [encodeElems]
  | cons f l ih =>
    rcases l with _ | ⟨g, l⟩
    · simp [encodeElems, encodeStruct_eq]
    · simp only [encodeElems, List.length_append, List.length_cons, List.length_nil] at ih ⊢
      omega

/-- The loop of `d.array` over the elements the encoder wrote. -/
theorem arrayLoop_encodeElems : ∀ (l : List formInput) (f : formInput) (fuel : Nat)
    (rest : GoString) (acc : List formInput), l.length + 1 ≤ fuel →
    arrayLoop fuel (encodeElems (f :: l) ++ ([0x5D] ++ rest)) acc =
      .ok (acc ++ (f :: l).map formInput.coerce, rest) := by
  intro l
  induction l with
  | nil =>
    intro f fuel rest acc hfuel
    obtain ⟨k, rfl⟩ : ∃ k, fuel = k + 1 := ⟨fuel - 1, by simp at hfuel; omega⟩
    have e : encodeElems [f] ++ ([0x5D] ++ rest) = 0x7B :: ((encodeStruct f).tail ++ 0x5D :: rest) := by
      rw [encodeElems, encodeStruct_eq]
      rfl
    have e2 := valueStruct_encodeStruct f (0x5D :: rest)
    have e3 : encodeStruct f ++ 0x5D :: rest = 0x7B :: ((encodeStruct f).tail ++ 0x5D :: rest) := by
      rw [encodeStruct_eq]
      rfl
    rw [e3] at e2
    rw [e, arrayLoop]
    simp only [skipSpace_lbrace, e2, skipSpace_rbracket]
    simp
  | cons g l ih =>
    intro f fuel rest acc hfuel
    obtain ⟨k, rfl⟩ : ∃ k, fuel = k + 1 := ⟨fuel - 1, by simp at hfuel; omega⟩
    have e : encodeElems (f :: g :: l) ++ ([0x5D] ++ rest) =
        0x7B :: ((encodeStruct f).tail ++ 0x2C :: (encodeElems (g :: l) ++ ([0x5D] ++ rest))) := by
      rw [encodeElems, encodeStruct_eq]
      simp
    have e2 := valueStruct_encodeStruct f (0x2C :: (encodeElems (g :: l) ++ ([0x5D] ++ rest)))
    have e3 : encodeStruct f ++ 0x2C :: (encodeElems (g :: l) ++ ([0x5D] ++ rest)) =
        0x7B :: ((encodeStruct f).tail ++ 0x2C :: (encodeElems (g :: l) ++ ([0x5D] ++ rest))) := by
      rw [encodeStruct_eq]
      rfl
    rw [e3] at e2
    rw [e, arrayLoop]
    simp only [skipSpace_lbrace, e2, skipSpace_comma]
    simp only [Nat.reduceEqDiff, if_false, if_true]
    rw [ih g k rest (acc ++ [f.coerce]) (by simp at hfuel ⊢; omega)]
    simp

/-- Round trip: `json.Unmarshal` reads what `json.Marshal` wrote for a
non-nil slice as the same records with every field coerced to valid UTF-8. -/
theorem Unmarshal_Marshal (l : List formInput) :
    Unmarshal (Marshal (some l)) = .ok (some (l.map formInput.coerce)) := by
  rw [Unmarshal, checkValid_Marshal]
  rcases l with _ | ⟨f, l⟩
  · rfl
  have e : Marshal (some (f :: l)) = 0x5B :: (encodeElems (f :: l) ++ ([0x5D] ++ [])) := by
    simp [Marshal]
  rw [e]
  simp only [valueSlice, skipSpace_lbracket, if_true]
  have hlen := length_le_encodeElems (f :: l)
  rw [arrayLoop_encodeElems l f _ _ _ (by
    simp only [List.length_cons, List.length_append, List.length_nil] at hlen ⊢; omega)]
  rfl

theorem Unmarshal_Marshal_nil : Unmarshal (Marshal none) = .ok none := by
  rfl

theorem Valid_nil : Valid [] = true := rfl

theorem Valid_EncodeRune (r : Nat) (t : GoString) : Valid (EncodeRune r ++ t) = Valid t := by
  by_cases h : r < 0x80
  · have e : EncodeRune r = [r] := by
      have : r ≤ 127 := by omega
      simp [EncodeRune, this]
    rw [e, List.singleton_append, Valid_ascii r t h]
  · obtain ⟨r1, hw⟩ := EncodeRune_wellFormed r (by omega)
    exact Valid_seq _ r1 t hw

theorem unquoteStep_valid (loop : GoString → Option GoString)
    (hloop : ∀ x u, loop x = some u → Valid u = true) (c : Nat) (rest u : GoString)
    (h : unquoteStep loop c rest = some u) : Valid u = true := by
  have key : ∀ (x : GoString) (p : GoString), (∀ t, Valid (p ++ t) = Valid t) →
      (loop x).map (fun t => p ++ t) = some u → Valid u = true := by
    intro x p hp hm
    rw [Option.map_eq_some'] at hm
    obtain ⟨t, ht, rfl⟩ := hm
    rw [hp, hloop x t ht]
  have key1 : ∀ (x : GoString) (e : Nat), e < 0x80 →
      (loop x).map (fun t => e :: t) = some u → Valid u = true := by
    intro x e he hm
    exact key x [e] (fun t => Valid_ascii e t he) hm
  have tail : (if c = 0x22 ∨ c < 0x20 then none
      else if c < RuneSelf then (loop rest).map (fun t => c :: t)
      else (loop ((c :: rest).drop (DecodeRune (c :: rest)).2)).map
        (fun t => EncodeRune (DecodeRune (c :: rest)).1 ++ t)) = some u → Valid u = true := by
    intro h
    by_cases h2 : c = 0x22 ∨ c < 0x20
    · rw [if_pos h2] at h
      exact absurd h (by simp)
    rw [if_neg h2] at h
    by_cases h3 : c < RuneSelf
    · rw [if_pos h3] at h
      exact key1 _ c (by simpa [RuneSelf] using h3) h
    · rw [if_neg h3] at h
      exact key _ _ (Valid_EncodeRune _) h
  by_cases h1 : c = 0x5C
  swap
  · simp only [unquoteStep, if_neg h1] at h
    exact tail h
  rcases rest with _ | ⟨e, rest1⟩
  · simp only [unquoteStep, if_pos h1] at h
    exact absurd h (by simp)
  simp only [unquoteStep, if_pos h1] at h
  by_cases g1 : e = 0x22 ∨ e = 0x5C ∨ e = 0x2F ∨ e = 0x27
  · rw [if_pos g1] at h
    exact key1 _ e (by omega) h
  rw [if_neg g1] at h
  by_cases g2 : e = 0x62
  · rw [if_pos g2] at h
    exact key1 _ _ (by omega) h
  rw [if_neg g2] at h
  by_cases g3 : e = 0x66
  · rw [if_pos g3] at h
    exact key1 _ _ (by omega) h
  rw [if_neg g3] at h
  by_cases g4 : e = 0x6E
  · rw [if_pos g4] at h
    exact key1 _ _ (by omega) h
  rw [if_neg g4] at h
  by_cases g5 : e = 0x72
  · rw [if_pos g5] at h
    exact key1 _ _ (by omega) h
  rw [if_neg g5] at h
  by_cases g6 : e = 0x74
  · rw [if_pos g6] at h
    exact key1 _ _ (by omega) h
  rw [if_neg g6] at h
  by_cases g7 : e = 0x75
  swap
  · rw [if_neg g7] at h
    exact absurd h (by simp)
  rw [if_pos g7] at h
  cases hg : getu4 (c :: e :: rest1) with
  | none =>
    rw [hg] at h
    exact absurd h (by simp)
  | some rr =>
    rw [hg] at h
    simp only at h
    split_ifs at h
    · exact key _ _ (Valid_EncodeRune _) h
    · exact key _ _ (Valid_EncodeRune _) h
    · exact key _ _ (Valid_EncodeRune _) h

/-- Whatever the second loop of `unquoteBytes` returns is valid UTF-8. -/
theorem unquoteLoop_valid : ∀ (fuel : Nat) (s u : GoString),
    unquoteLoop fuel s = some u → Valid u = true := by
  intro fuel
  induction fuel with
  | zero =>
    intro s u h
    rcases s with _ | ⟨c, rest⟩
    · simp only [unquoteLoop, Option.some.injEq] at h
      subst h
      rfl
    · simp [unquoteLoop] at h
  | succ fuel ih =>
    intro s u h
    rcases s with _ | ⟨c, rest⟩
    · simp only [unquoteLoop, Option.some.injEq] at h
      subst h
      rfl
    · rw [unquoteLoop] at h
      exact unquoteStep_valid _ ih c rest u h

/-- Whatever `unquoteBytes` returns is valid UTF-8. -/
theorem unquoteBytes_valid (s u : GoString) (h : unquoteBytes s = some u) : Valid u = true := by
  simp only [unquoteBytes] at h
  split_ifs at h with h1 h2
  · simp only [Option.some.injEq] at h
    rw [unquoteScan_fuel (le_refl _)] at h2
    have := unquoted_of_plain _ h2
    rw [h] at this
    exact unquoteLoop_valid _ _ _ this
  · simp only [unquoteScan_fuel (le_refl _)] at h
    rw [unquoteLoop_fuel (by simp), (unquoted_plainLength _).2] at h
    exact unquoteLoop_valid _ _ _ h

theorem valueString_valid (data cur : GoString) (r : GoString × GoString)
    (h : valueString data cur = .ok r) (hc : Valid cur = true) : Valid r.1 = true := by
  rcases data with _ | ⟨c, rest⟩
  · simp [valueString] at h
  simp only [valueString] at h
  split_ifs at h with h1 h2 h3 h4
  · simp only [Except.ok.injEq] at h
    rw [← h]
    exact hc
  · split at h
    · exact absurd h (by simp)
    · rename_i t ht
      simp only [Except.ok.injEq] at h
      rw [← h]
      exact unquoteBytes_valid _ _ ht

theorem utf8_iff (v : formInput) :
    v.utf8 = true ↔ Valid v.FirstName = true ∧ Valid v.LastName = true ∧ Valid v.Email = true ∧
      Valid v.PhoneNumber = true := by
  simp [formInput.utf8, and_assoc]

theorem getField_valid (v : formInput) (i : Nat) (h : v.utf8 = true) :
    Valid (getField v i) = true := by
  rw [utf8_iff] at h
  unfold getField
  split
  · exact h.1
  · exact h.2.1
  · exact h.2.2.1
  · exact h.2.2.2

theorem setField_utf8 (v : formInput) (i : Nat) (t : GoString) (h : v.utf8 = true)
    (ht : Valid t = true) : (setField v i t).utf8 = true := by
  rw [utf8_iff] at h ⊢
  unfold setField
  split
  · exact ⟨ht, h.2.1, h.2.2.1, h.2.2.2⟩
  · exact ⟨h.1, ht, h.2.2.1, h.2.2.2⟩
  · exact ⟨h.1, h.2.1, ht, h.2.2.2⟩
  · exact ⟨h.1, h.2.1, h.2.2.1, ht⟩

theorem objectLoop_utf8 : ∀ (fuel : Nat) (data : GoString) (v : formInput)
    (r : formInput × GoString), objectLoop fuel data v = .ok r → v.utf8 = true →
    r.1.utf8 = true := by
  intro fuel
  induction fuel with
  | zero => intro data v r h; simp [objectLoop] at h
  | succ fuel ih =>
    intro data v r h hv
    rw [objectLoop] at h
    split at h
    · exact absurd h (by simp)
    rename_i c rest _
    split_ifs at h with h1 h2
    · simp only [Except.ok.injEq] at h
      rw [← h]
      exact hv
    simp only at h
    split at h
    · exact absurd h (by simp)
    rename_i key _
    split at h
    · exact absurd h (by simp)
    rename_i c1 rest1 _
    split_ifs at h with h3
    split at h
    · exact absurd h (by simp)
    rename_i r1 hstored
    have hr1 : r1.1.utf8 = true := by
      split at hstored
      · rename_i i _
        split at hstored
        · exact absurd hstored (by simp)
        · rename_i r2 hval
          simp only [Except.ok.injEq] at hstored
          rw [← hstored]
          exact setField_utf8 v i r2.1 hv (valueString_valid _ _ _ hval (getField_valid v i hv))
      · simp only [Except.ok.injEq] at hstored
        rw [← hstored]
        exact hv
    split at h
    · exact absurd h (by simp)
    rename_i c2 rest2 _
    split_ifs at h with h4 h5
    · simp only [Except.ok.injEq] at h
      rw [← h]
      exact hr1
    · exact ih _ _ _ h hr1

theorem valueStruct_utf8 (data : GoString) (r : formInput × GoString)
    (h : valueStruct data = .ok r) : r.1.utf8 = true := by
  rcases data with _ | ⟨c, rest⟩
  · simp [valueStruct] at h
  simp only [valueStruct] at h
  split_ifs at h with h1 h2 h3
  · exact objectLoop_utf8 _ _ _ _ h rfl
  · simp only [Except.ok.injEq] at h
    rw [← h]
    rfl

theorem arrayLoop_utf8 : ∀ (fuel : Nat) (data : GoString) (acc : List formInput)
    (r : List formInput × GoString), arrayLoop fuel data acc = .ok r →
    (∀ f ∈ acc, f.utf8 = true) → ∀ f ∈ r.1, f.utf8 = true := by
  intro fuel
  induction fuel with
  | zero => intro data acc r h; simp [arrayLoop] at h
  | succ fuel ih =>
    intro data acc r h hacc
    rw [arrayLoop] at h
    split at h
    · exact absurd h (by simp)
    rename_i c rest _
    split_ifs at h with h1
    · simp only [Except.ok.injEq] at h
      rw [← h]
      exact hacc
    split at h
    · exact absurd h (by simp)
    rename_i r1 hval
    have hacc1 : ∀ f ∈ acc ++ [r1.1], f.utf8 = true := by
      intro f hf
      rw [List.mem_append, List.mem_singleton] at hf
      rcases hf with hf | rfl
      · exact hacc f hf
      · exact valueStruct_utf8 _ _ hval
    split at h
    · exact absurd h (by simp)
    rename_i c2 rest2 _
    split_ifs at h with h4 h5
    · simp only [Except.ok.injEq] at h
      rw [← h]
      exact hacc1
    · exact ih _ _ _ h hacc1

/-- Every string `json.Unmarshal` stores is valid UTF-8. -/
theorem Unmarshal_utf8 (data : GoString) (v : formSlice) (h : Unmarshal data = .ok v) :
    ∀ f ∈ v.elems, f.utf8 = true := by
  unfold Unmarshal at h
  split at h
  · exact absurd h (by simp)
  unfold valueSlice at h
  split at h
  · exact absurd h (by simp)
  split_ifs at h with h1 h2 h3
  · split at h
    · exact absurd h (by simp)
    · rename_i r hr
      simp only [Except.ok.injEq] at h
      rw [← h]
      exact arrayLoop_utf8 _ _ _ _ hr (by simp)
  · simp only [Except.ok.injEq] at h
    rw [← h]
    simp [formSlice.elems]

theorem coerce_of_utf8 (f : formInput) (h : f.utf8 = true) : f.coerce = f := by
  rw [utf8_iff] at h
  simp only [formInput.coerce, coerce_of_Valid _ h.1, coerce_of_Valid _ h.2.1,
    coerce_of_Valid _ h.2.2.1, coerce_of_Valid _ h.2.2.2]

theorem map_coerce_of_utf8 (l : List formInput) (h : ∀ f ∈ l, f.utf8 = true) :
    l.map formInput.coerce = l := by
  induction l with
  | nil => rfl
  | cons f l ih =>
    rw [List.map_cons, coerce_of_utf8 f (h f (by simp)), ih (fun g hg => h g (by simp [hg]))]

theorem after_error (s : scanner) (c : Nat) (ctx : String) (h : s.inside) :
    (s.error c ctx).after c := by
  obtain ⟨step, endTop, ps, err, bytes⟩ := s
  simp_all [scanner.after, scanner.inside, scanner.error]

theorem after_set (s : scanner) (c : Nat) (st : stepState) (h : s.inside)
    (hst : st ≠ .stateError) : scanner.after { s with step := st } c := by
  obtain ⟨step, endTop, ps, err, bytes⟩ := s
  simp_all [scanner.after, scanner.inside]

theorem after_self (s : scanner) (c : Nat) (h : s.inside) (hst : s.step ≠ .stateError) :
    s.after c := by
  obtain ⟨step, endTop, ps, err, bytes⟩ := s
  simp_all [scanner.after, scanner.inside]

theorem stateEndValue_after (s : scanner) (c : Nat) (h : s.inside) :
    (stateEndValue s c).after c := by
  obtain ⟨step, endTop, ps, err, bytes⟩ := s
  rcases ps with _ | ⟨p, ps⟩
  · simp [scanner.inside] at h
  simp only [scanner.inside] at h
  simp only [stateEndValue, scanner.popParseState, scanner.error, scanner.after, scanner.inside]
  split_ifs <;> simp_all [isSpace]

theorem pushParseState_after (s : scanner) (c p : Nat) (h : s.inside)
    (hst : s.step ≠ .stateError) : (s.pushParseState c p).after c := by
  unfold scanner.pushParseState
  have hin : scanner.inside { s with parseState := p :: s.parseState } := ⟨h.1, by simp⟩
  simp only
  split_ifs
  · exact after_self _ c hin hst
  · exact after_error _ c _ hin

theorem stateBeginValue_after (s : scanner) (c : Nat) (h : s.inside)
    (hst : s.step ≠ .stateError) : (stateBeginValue s c).after c := by
  unfold stateBeginValue
  split
  · exact after_self s c h hst
  split
  · exact pushParseState_after { s with step := .stateBeginStringOrEmpty } c _ ⟨h.1, h.2⟩
      (by simp)
  split
  · exact pushParseState_after { s with step := .stateBeginValueOrEmpty } c _ ⟨h.1, h.2⟩
      (by simp)
  split
  · exact after_set s c _ h (by simp)
  split
  · exact after_set s c _ h (by simp)
  split
  · exact after_set s c _ h (by simp)
  split
  · exact after_set s c _ h (by simp)
  split
  · exact after_set s c _ h (by simp)
  split
  · exact after_set s c _ h (by simp)
  split
  · exact after_set s c _ h (by simp)
  · exact after_error s c _ h

theorem stateEndTop_after (s : scanner) (c : Nat) (h : s.inside) (hst : s.step ≠ .stateError) :
    (stateEndTop s c).after c := by
  unfold stateEndTop
  split_ifs
  · exact after_error s c _ h
  · exact after_self s c h hst

theorem stateBeginValueOrEmpty_after (s : scanner) (c : Nat) (h : s.inside)
    (hst : s.step ≠ .stateError) : (stateBeginValueOrEmpty s c).after c := by
  unfold stateBeginValueOrEmpty
  split_ifs
  · exact after_self s c h hst
  · exact stateEndValue_after s c h
  · exact stateBeginValue_after s c h hst

theorem stateBeginString_after (s : scanner) (c : Nat) (h : s.inside)
    (hst : s.step ≠ .stateError) : (stateBeginString s c).after c := by
  unfold stateBeginString
  split_ifs
  · exact after_self s c h hst
  · exact after_set s c _ h (by simp)
  · exact after_error s c _ h

theorem stateBeginStringOrEmpty_after (s : scanner) (c : Nat) (h : s.inside)
    (hst : s.step ≠ .stateError) : (stateBeginStringOrEmpty s c).after c := by
  unfold stateBeginStringOrEmpty
  split_ifs
  · exact after_self s c h hst
  · exact stateEndValue_after _ c ⟨h.1, by simp⟩
  · exact stateBeginString_after s c h hst

theorem stateInString_after (s : scanner) (c : Nat) (h : s.inside)
    (hst : s.step ≠ .stateError) : (stateInString s c).after c := by
  unfold stateInString
  split_ifs
  · exact after_set s c _ h (by simp)
  · exact after_set s c _ h (by simp)
  · exact after_error s c _ h
  · exact after_self s c h hst

theorem stateInStringEsc_after (s : scanner) (c : Nat) (h : s.inside) :
    (stateInStringEsc s c).after c := by
  unfold stateInStringEsc
  split_ifs
  · exact after_set s c _ h (by simp)
  · exact after_set s c _ h (by simp)
  · exact after_error s c _ h

theorem stateInStringEscUn_after (next : stepState) (s : scanner) (c : Nat) (h : s.inside)
    (hn : next ≠ .stateError) : (stateInStringEscUn next s c).after c := by
  unfold stateInStringEscUn
  split_ifs
  · exact after_set s c _ h hn
  · exact after_error s c _ h

theorem state0_after (s : scanner) (c : Nat) (h : s.inside) : (state0 s c).after c := by
  unfold state0
  split_ifs
  · exact after_set s c _ h (by simp)
  · exact after_set s c _ h (by simp)
  · exact stateEndValue_after s c h

theorem state1_after (s : scanner) (c : Nat) (h : s.inside) : (state1 s c).after c := by
  unfold state1
  split_ifs
  · exact after_set s c _ h (by simp)
  · exact state0_after s c h

theorem stateNeg_after (s : scanner) (c : Nat) (h : s.inside) : (stateNeg s c).after c := by
  unfold stateNeg
  split_ifs
  · exact after_set s c _ h (by simp)
  · exact after_set s c _ h (by simp)
  · exact after_error s c _ h

theorem stateDot_after (s : scanner) (c : Nat) (h : s.inside) : (stateDot s c).after c := by
  unfold stateDot
  split_ifs
  · exact after_set s c _ h (by simp)
  · exact after_error s c _ h

theorem stateDot0_after (s : scanner) (c : Nat) (h : s.inside) (hst : s.step ≠ .stateError) :
    (stateDot0 s c).after c := by
  unfold stateDot0
  split_ifs
  · exact after_self s c h hst
  · exact after_set s c _ h (by simp)
  · exact stateEndValue_after s c h

theorem stateESign_after (s : scanner) (c : Nat) (h : s.inside) : (stateESign s c).after c := by
  unfold stateESign
  split_ifs
  · exact after_set s c _ h (by simp)
  · exact after_error s c _ h

theorem stateE_after (s : scanner) (c : Nat) (h : s.inside) : (stateE s c).after c := by
  unfold stateE
  split_ifs
  · exact after_set s c _ h (by simp)
  · exact stateESign_after s c h

theorem stateE0_after (s : scanner) (c : Nat) (h : s.inside) (hst : s.step ≠ .stateError) :
    (stateE0 s c).after c := by
  unfold stateE0
  split_ifs
  · exact after_self s c h hst
  · exact stateEndValue_after s c h

theorem stateLit_after (want : Nat) (next : stepState) (ctx : String) (s : scanner) (c : Nat)
    (h : s.inside) (hn : next ≠ .stateError) : (stateLit want next ctx s c).after c := by
  unfold stateLit
  split_ifs
  · exact after_set s c _ h hn
  · exact after_error s c _ h

/-- A step from a scanner with an open array or object. -/
theorem call_after (s : scanner) (c : Nat) (h : s.inside) (hst : s.step ≠ .stateError) :
    (s.call c).after c := by
  unfold scanner.call
  split
  · exact stateBeginValueOrEmpty_after s c h hst
  · exact stateBeginValue_after s c h hst
  · exact stateBeginStringOrEmpty_after s c h hst
  · exact stateBeginString_after s c h hst
  · exact stateEndValue_after s c h
  · exact stateEndTop_after s c h hst
  · exact stateInString_after s c h hst
  · exact stateInStringEsc_after s c h
  · exact stateInStringEscUn_after _ s c h (by simp)
  · exact stateInStringEscUn_after _ s c h (by simp)
  · exact stateInStringEscUn_after _ s c h (by simp)
  · exact stateInStringEscUn_after _ s c h (by simp)
  · exact stateNeg_after s c h
  · exact state1_after s c h
  · exact state0_after s c h
  · exact stateDot_after s c h
  · exact stateDot0_after s c h hst
  · exact stateE_after s c h
  · exact stateESign_after s c h
  · exact stateE0_after s c h hst
  all_goals first
    | exact stateLit_after _ _ _ s c h (by simp)
    | skip
  · rename_i he
    exact absurd he hst

theorem feed_dead (s : scanner) (c : Nat) (h : s.dead) : (s.feed c).dead := by
  obtain ⟨step, endTop, ps, err, bytes⟩ := s
  obtain ⟨h1, h2⟩ := h
  simp only at h1
  subst h1
  exact ⟨rfl, h2⟩

theorem foldl_feed_dead (q : GoString) : ∀ s : scanner, s.dead → (q.foldl scanner.feed s).dead := by
  induction q with
  | nil => intro s h; exact h
  | cons c q ih => intro s h; exact ih _ (feed_dead s c h)

theorem eof_dead (s : scanner) (h : s.dead) : s.eof ≠ none := by
  obtain ⟨step, endTop, ps, err, bytes⟩ := s
  obtain ⟨_, h2⟩ := h
  cases err with
  | none => exact absurd rfl h2
  | some e => simp [scanner.eof]

theorem feed_closed (s : scanner) (c : Nat) (h : s.closed) :
    (isSpace c = true ∧ (s.feed c).closed) ∨ (isSpace c = false ∧ (s.feed c).dead) := by
  obtain ⟨step, endTop, ps, err, bytes⟩ := s
  obtain ⟨h1, h2, h3⟩ := h
  simp only at h1 h2 h3
  subst h1 h2 h3
  cases hc : isSpace c
  · right
    simp [scanner.feed, scanner.call, stateEndTop, hc, scanner.dead, scanner.error]
  · left
    simp [scanner.feed, scanner.call, stateEndTop, hc, scanner.closed]

/-- After a complete value only white space passes. -/
theorem closed_rest (q : GoString) : ∀ s : scanner, s.closed →
    (q.foldl scanner.feed s).eof = none → ∀ c ∈ q, isSpace c = true := by
  induction q with
  | nil => intro s _ _ c hc; simp at hc
  | cons b q ih =>
    intro s hs h c hc
    rw [List.foldl_cons] at h
    rcases feed_closed s b hs with ⟨hb, hcl⟩ | ⟨_, hd⟩
    · rcases List.mem_cons.mp hc with rfl | hc
      · exact hb
      · exact ih _ hcl h c hc
    · exact absurd h (eof_dead _ (foldl_feed_dead q _ hd))

theorem after_sound (r : scanner) (c : Nat) (h : r.after c) : r.sound := by
  obtain ⟨h1, h2⟩ := h
  refine ⟨?_, h2⟩
  rcases h1 with ⟨a, b, _⟩ | h1
  · exact Or.inl ⟨a, Or.inl b⟩
  · exact Or.inr h1

theorem feed_sound (s : scanner) (c : Nat) (h : s.sound) : (s.feed c).sound := by
  by_cases hst : s.step = .stateError
  · have hd : s.dead := ⟨hst, h.2 hst⟩
    have hd' := feed_dead s c hd
    obtain ⟨step, endTop, ps, err, bytes⟩ := s
    simp only at hst
    subst hst
    exact ⟨h.1, fun _ => hd'.2⟩
  rcases h.1 with ⟨h1, h2⟩ | hin
  · have h2' : s.step = .stateEndTop := by
      rcases h2 with h2 | h2
      · exact h2
      · exact absurd h2 hst
    obtain ⟨step, endTop, ps, err, bytes⟩ := s
    simp only at h1 h2'
    subst h1 h2'
    cases hc : isSpace c <;>
      simp [scanner.feed, scanner.call, stateEndTop, hc, scanner.sound, scanner.error]
  · exact after_sound _ c (call_after _ c ⟨hin.1, hin.2⟩ hst)

theorem foldl_feed_sound (q : GoString) : ∀ s : scanner, s.sound →
    (q.foldl scanner.feed s).sound := by
  induction q with
  | nil => intro s h; exact h
  | cons c q ih => intro s h; exact ih _ (feed_sound s c h)

theorem sound_eof (s : scanner) (h : s.sound) (he : s.eof = none) : s.closed := by
  have herr : s.err = none := by
    cases hs : s.err with
    | none => rfl
    | some e => simp [scanner.eof, hs] at he
  have hst : s.step ≠ .stateError := fun hst => h.2 hst herr
  rcases h.1 with ⟨h1, h2⟩ | hin
  · refine ⟨h1, ?_, herr⟩
    rcases h2 with h2 | h2
    · exact h2
    · exact absurd h2 hst
  · exfalso
    have ha := call_after s 0x20 hin hst
    have hend : (s.call 0x20).endTop = false := by
      rcases ha.1 with ⟨_, _, hsp⟩ | hin'
      · exact absurd hsp (by decide)
      · exact hin'.1
    simp [scanner.eof, herr, hin.1, hend] at he
    cases hs : (s.call 0x20).err <;> simp [hs] at he

/-- If a text that starts with an opening bracket is valid JSON, and so is
the text continued by `q`, then `q` is white space. -/
theorem checkValid_append (p q : GoString) (h1 : checkValid (0x5B :: p) = none)
    (h2 : checkValid (0x5B :: p ++ q) = none) : ∀ c ∈ q, isSpace c = true := by
  have hs0 : (scanner.feed reset 0x5B).sound := by
    refine ⟨Or.inr ⟨rfl, ?_⟩, ?_⟩
    · show [parseArrayValue] ≠ []
      simp
    · intro h
      exact absurd h (by decide)
  simp only [checkValid, List.cons_append, List.foldl_cons, List.foldl_append] at h1 h2
  exact closed_rest q _ (sound_eof _ (foldl_feed_sound p _ hs0) h1) h2

/-- A file that holds only the first `n` bytes of what `json.Marshal` wrote
for a non-nil slice, with at least one byte missing, is not valid JSON. -/
theorem checkValid_take_Marshal (l : List formInput) (n : Nat)
    (h : n < (Marshal (some l)).length) : checkValid ((Marshal (some l)).take n) ≠ none := by
  intro hv
  rcases n with _ | n
  · rw [List.take_zero] at hv
    exact absurd hv (by decide)
  have e : Marshal (some l) = 0x5B :: (encodeElems l ++ [0x5D]) := by simp [Marshal]
  rw [e] at h hv
  simp only [List.take_succ_cons] at hv
  have hfull := checkValid_Marshal (some l)
  rw [e, ← List.take_append_drop n (encodeElems l ++ [0x5D])] at hfull
  have hsp := checkValid_append _ ((encodeElems l ++ [0x5D]).drop n) hv hfull
  have hlen : n < (encodeElems l ++ [0x5D]).length := by simpa using h
  have hmem : 0x5D ∈ (encodeElems l ++ [0x5D]).drop n := by
    rw [List.drop_append_eq_append_drop]
    simp only [List.length_append, List.length_cons, List.length_nil] at hlen
    have : n - (encodeElems l).length = 0 := by omega
    rw [this]
    simp
  have h5 := hsp 0x5D hmem
  exact absurd h5 (by decide)

theorem Unmarshal_take_Marshal (l : List formInput) (n : Nat)
    (h : n < (Marshal (some l)).length) :
    ∃ e, Unmarshal ((Marshal (some l)).take n) = .error e := by
  cases hv : checkValid ((Marshal (some l)).take n) with
  | none => exact absurd hv (checkValid_take_Marshal l n h)
  | some e => exact ⟨.syntaxError e, by simp [Unmarshal, hv]⟩

/-- The scanner after the whole output of `json.Marshal` for a non-nil
slice: the top-level value is complete. -/
theorem feed_Marshal (l : List formInput) :
    (Marshal (some l)).foldl scanner.feed reset =
      ⟨.stateEndTop, true, [], none, (Marshal (some l)).length⟩ := by
  rcases l with _ | ⟨f, l⟩
  · rfl
  have hopen : scanner.feed reset 0x5B =
      ⟨.stateBeginValueOrEmpty, false, [parseArrayValue], none, 1⟩ := rfl
  have hclose : ∀ m, scanner.feed ⟨.stateEndValue, false, [parseArrayValue], none, m⟩ 0x5D =
      ⟨.stateEndTop, true, [], none, m + 1⟩ := fun _ => rfl
  simp only [Marshal, List.foldl_append, List.foldl_cons, List.foldl_nil, hopen,
    feed_encodeElems l f _ _ (Or.inr rfl), hclose]
  simp only [scanner.mk.injEq, true_and, List.length_append, List.length_cons, List.length_nil]

/-- What `json.NewEncoder(resp).Encode` writes for a non-nil slice, the JSON
text and a newline, is read by `json.Unmarshal` as the same records with
every field coerced to valid UTF-8. -/
theorem Unmarshal_Marshal_newline (l : List formInput) :
    Unmarshal (Marshal (some l) ++ [0x0A]) = .ok (some (l.map formInput.coerce)) := by
  have hv : checkValid (Marshal (some l) ++ [0x0A]) = none := by
    rw [checkValid, List.foldl_append, feed_Marshal]
    rfl
  rw [Unmarshal, hv]
  rcases l with _ | ⟨f, l⟩
  · rfl
  have e : Marshal (some (f :: l)) ++ [0x0A] =
      0x5B :: (encodeElems (f :: l) ++ ([0x5D] ++ [0x0A])) := by
    simp [Marshal]
  rw [e]
  simp only [valueSlice, skipSpace_lbracket, if_true]
  have hlen := length_le_encodeElems (f :: l)
  rw [arrayLoop_encodeElems l f _ _ _ (by
    simp only [List.length_cons, List.length_append, List.length_nil] at hlen ⊢; omega)]
  rfl

/-! ## main.go: the service -/

theorem validate_eq_none (f : formInput) :
    f.validate = none ↔
      f.FirstName ≠ [] ∧ f.LastName ≠ [] ∧ f.Email ≠ [] ∧ f.PhoneNumber ≠ [] := by
  unfold formInput.validate
  split_ifs with h
  · simp only [reduceCtorEq, false_iff]
    intro hn
    rcases h with h | h | h | h
    · exact hn.1 h
    · exact hn.2.1 h
    · exact hn.2.2.1 h
    · exact hn.2.2.2 h
  · simp only [true_iff]
    exact ⟨fun e => h (Or.inl e), fun e => h (Or.inr (Or.inl e)),
      fun e => h (Or.inr (Or.inr (Or.inl e))), fun e => h (Or.inr (Or.inr (Or.inr e)))⟩

theorem validate_coerce (f : formInput) : f.coerce.validate = none ↔ f.validate = none := by
  rw [validate_eq_none, validate_eq_none]
  simp only [formInput.coerce, ne_eq, coerce_eq_nil]

theorem getData_of_ok (ops : FileOps) (file : GoString) (c : formSlice)
    (h : ops.readFails = none) (hu : Unmarshal file = .ok c) : getData ops (some file) = .ok c := by
  simp only [getData, ReadFile, h, hu]

theorem getData_of_error (ops : FileOps) (file : GoString) (e : JsonError)
    (h : ops.readFails = none) (hu : Unmarshal file = .error e) :
    getData ops (some file) = .error (.json e) := by
  simp only [getData, ReadFile, h, hu]

/-- A load that succeeds read the file that is on disk. -/
theorem getData_ok (ops : FileOps) (disk : Disk) (c : formSlice) (h : getData ops disk = .ok c) :
    ops.readFails = none ∧ ∃ file, disk = some file ∧ Unmarshal file = .ok c := by
  unfold getData ReadFile at h
  cases hr : ops.readFails with
  | some t => simp [hr] at h
  | none =>
    refine ⟨rfl, ?_⟩
    cases disk with
    | none => simp [hr] at h
    | some file =>
      refine ⟨file, rfl, ?_⟩
      simp only [hr] at h
      cases hu : Unmarshal file with
      | error e => simp [hu] at h
      | ok v =>
        simp only [hu, Except.ok.injEq] at h
        rw [h]

theorem getData_fine (ops : FileOps) (disk : Disk) (c : formSlice) (h : getData ops disk = .ok c)
    (ops1 : FileOps) (h1 : ops1.readFails = none) : getData ops1 disk = .ok c := by
  obtain ⟨_, file, rfl, hu⟩ := getData_ok ops disk c h
  exact getData_of_ok ops1 file c h1 hu

/-- The records of a collection that was loaded are valid UTF-8. -/
theorem getData_utf8 (ops : FileOps) (disk : Disk) (c : formSlice) (h : getData ops disk = .ok c) :
    c.elems.map formInput.coerce = c.elems := by
  obtain ⟨_, file, _, hu⟩ := getData_ok ops disk c h
  exact map_coerce_of_utf8 _ (Unmarshal_utf8 file c hu)

/-- What a later load makes of the file a successful `save` wrote. -/
theorem getData_saved (ops ops1 : FileOps) (disk : Disk) (c : formSlice) (f : formInput)
    (h : getData ops disk = .ok c) (h1 : ops1.readFails = none) :
    getData ops1 (some (Marshal (some (c.elems ++ [f])))) = .ok (some (c.elems ++ [f.coerce])) := by
  refine getData_of_ok ops1 _ _ h1 ?_
  rw [Unmarshal_Marshal, List.map_append, getData_utf8 ops disk c h]
  rfl

theorem get_ne_post : ascii "GET" ≠ ascii "POST" := by decide

theorem save_of_error (f : formInput) (ops : FileOps) (disk : Disk) (err : GoError)
    (h : getData ops disk = .error err) : f.save ops disk = (some err, disk) := by
  simp only [formInput.save, h]

theorem save_of_ok (f : formInput) (ops : FileOps) (disk : Disk) (c : formSlice)
    (h : getData ops disk = .ok c) :
    f.save ops disk = WriteFile ops disk (Marshal (some (c.elems ++ [f]))) := by
  simp only [formInput.save, h]

theorem handleFunc_parse_error (jsonText : JsonError → GoString) (ops : FileOps) (req : Request)
    (disk : Disk) (err : GoError) (hm : req.Method = ascii "POST")
    (hp : req.parseFormErr = some err) :
    handleFunc jsonText ops req disk = (⟨StatusBadRequest, err.Error jsonText⟩, disk) := by
  simp only [handleFunc, hm, hp, if_true]

theorem handleFunc_invalid (jsonText : JsonError → GoString) (ops : FileOps) (req : Request)
    (disk : Disk) (err : GoError) (hm : req.Method = ascii "POST")
    (hp : req.parseFormErr = none) (hv : req.record.validate = some err) :
    handleFunc jsonText ops req disk = (⟨StatusBadRequest, err.Error jsonText⟩, disk) := by
  simp only [handleFunc, hm, hp, hv, if_true]

theorem handleFunc_valid (jsonText : JsonError → GoString) (ops : FileOps) (req : Request)
    (disk : Disk) (hm : req.Method = ascii "POST")
    (hp : req.parseFormErr = none) (hv : req.record.validate = none) :
    handleFunc jsonText ops req disk =
      match req.record.save ops disk with
      | (some err, disk1) => (⟨StatusInternalServerError, err.Error jsonText⟩, disk1)
      | (none, disk1) => (⟨StatusOK, ascii "form saved "⟩, disk1) := by
  simp only [handleFunc, hm, hp, hv, if_true]

theorem handleFunc_get (jsonText : JsonError → GoString) (ops : FileOps) (req : Request)
    (disk : Disk) (hm : req.Method = ascii "GET") :
    handleFunc jsonText ops req disk =
      match getData ops disk with
      | .error err => (⟨StatusInternalServerError, err.Error jsonText⟩, disk)
      | .ok formDatas => (⟨StatusOK, Marshal formDatas ++ [0x0A]⟩, disk) := by
  simp only [handleFunc, hm, get_ne_post, if_true, if_false]

theorem handleFunc_other (jsonText : JsonError → GoString) (ops : FileOps) (req : Request)
    (disk : Disk) (h1 : req.Method ≠ ascii "POST") (h2 : req.Method ≠ ascii "GET") :
    handleFunc jsonText ops req disk = (⟨StatusNotFound, ascii "not found"⟩, disk) := by
  simp only [handleFunc, h1, h2, if_false]

/-- What a request on `/` can do to the data file: nothing, or, for a valid
submission whose load succeeded, replace it by the serialized collection with
the record appended, or by the first bytes of that. -/
theorem handleFunc_disk (jsonText : JsonError → GoString) (ops : FileOps) (req : Request)
    (disk : Disk) :
    (handleFunc jsonText ops req disk).2 = disk ∨
    ∃ c, req.record.validate = none ∧ getData ops disk = .ok c ∧
      ((ops.write = .success ∧ (handleFunc jsonText ops req disk).2 =
          some (Marshal (some (c.elems ++ [req.record])))) ∨
       ∃ text n, ops.write = .writeFails text n ∧ (handleFunc jsonText ops req disk).2 =
          some ((Marshal (some (c.elems ++ [req.record]))).take n)) := by
  by_cases hm : req.Method = ascii "POST"
  · cases hp : req.parseFormErr with
    | some err => left; rw [handleFunc_parse_error jsonText ops req disk err hm hp]
    | none =>
      cases hv : req.record.validate with
      | some err => left; rw [handleFunc_invalid jsonText ops req disk err hm hp hv]
      | none =>
        rw [handleFunc_valid jsonText ops req disk hm hp hv]
        cases hg : getData ops disk with
        | error err => left; rw [save_of_error _ _ _ _ hg]
        | ok c =>
          rw [save_of_ok _ _ _ _ hg]
          cases hw : ops.write with
          | success =>
            right
            exact ⟨c, rfl, rfl, Or.inl ⟨rfl, by simp [WriteFile, hw]⟩⟩
          | openFails text => left; simp [WriteFile, hw]
          | writeFails text n =>
            right
            exact ⟨c, rfl, rfl, Or.inr ⟨text, n, rfl, by simp [WriteFile, hw]⟩⟩
  · by_cases hg : req.Method = ascii "GET"
    · left
      rw [handleFunc_get jsonText ops req disk hg]
      split <;> rfl
    · left; rw [handleFunc_other jsonText ops req disk hm hg]

/-- What one request does to a collection that loads, when the request is
not a submission answered with status 500. -/
theorem handleFunc_loads (jsonText : JsonError → GoString) (ops : FileOps) (req : Request)
    (disk : Disk) (l : List formInput) (h : getData FileOps.fine disk = .ok (some l))
    (hc : ¬ (req.Method = ascii "POST" ∧
      (handleFunc jsonText ops req disk).1.status = StatusInternalServerError)) :
    getData FileOps.fine (handleFunc jsonText ops req disk).2 =
      .ok (some (l ++ ((if req.Method = ascii "POST" ∧
        (handleFunc jsonText ops req disk).1.status = StatusOK then [req.record] else []).map
          formInput.coerce))) := by
  by_cases hm : req.Method = ascii "POST"
  · cases hp : req.parseFormErr with
    | some err =>
      rw [handleFunc_parse_error jsonText ops req disk err hm hp]
      simpa [StatusBadRequest, StatusOK] using h
    | none =>
      cases hv : req.record.validate with
      | some err =>
        rw [handleFunc_invalid jsonText ops req disk err hm hp hv]
        simpa [StatusBadRequest, StatusOK] using h
      | none =>
        rw [handleFunc_valid jsonText ops req disk hm hp hv] at hc ⊢
        cases hg : getData ops disk with
        | error err =>
          rw [save_of_error _ _ _ _ hg] at hc
          exact absurd ⟨hm, rfl⟩ hc
        | ok c =>
          have hc0 := getData_fine ops disk c hg FileOps.fine rfl
          rw [h] at hc0
          simp only [Except.ok.injEq] at hc0
          subst hc0
          rw [save_of_ok _ _ _ _ hg] at hc ⊢
          cases hw : ops.write with
          | success =>
            simp only [WriteFile, hw, hm, true_and, if_true, List.map_cons, List.map_nil]
            exact getData_saved ops FileOps.fine disk (some l) req.record hg rfl
          | openFails text =>
            simp only [WriteFile, hw] at hc
            exact absurd ⟨hm, trivial⟩ hc
          | writeFails text n =>
            simp only [WriteFile, hw] at hc
            exact absurd ⟨hm, trivial⟩ hc
  · have hd : handleFunc jsonText ops req disk = (⟨(handleFunc jsonText ops req disk).1.status,
        (handleFunc jsonText ops req disk).1.body⟩, disk) := by
      by_cases hg : req.Method = ascii "GET"
      · rw [handleFunc_get jsonText ops req disk hg]
        split <;> rfl
      · rw [handleFunc_other jsonText ops req disk hm hg]
    rw [hd]
    simpa [hm] using h

/-- The collection on disk after a run without failed submissions: the
initial records followed by the accepted ones, coerced to valid UTF-8. -/
theorem serve_loads (jsonText : JsonError → GoString) :
    ∀ (trace : List (FileOps × Request)) (disk : Disk) (l : List formInput),
    getData FileOps.fine disk = .ok (some l) → noFailedPost jsonText trace disk = true →
    getData FileOps.fine (serve jsonText trace disk) =
      .ok (some (l ++ (accepted jsonText trace disk).map formInput.coerce)) := by
  intro trace
  induction trace with
  | nil =>
    intro disk l h _
    simpa [serve, accepted] using h
  | cons step trace ih =>
    intro disk l h hc
    obtain ⟨ops, req⟩ := step
    simp only [noFailedPost, Bool.and_eq_true, Bool.not_eq_true', decide_eq_false_iff_not] at hc
    have h1 := handleFunc_loads jsonText ops req disk l h hc.1
    have h2 := ih _ _ h1 hc.2
    simp only [serve, accepted, List.map_append]
    rw [h2, List.append_assoc]

theorem take_Marshal_loads (l : List formInput) (n : Nat) (c : formSlice)
    (h : getData FileOps.fine (some ((Marshal (some l)).take n)) = .ok c) :
    (Marshal (some l)).take n = Marshal (some l) := by
  by_cases hn : n < (Marshal (some l)).length
  · obtain ⟨e, he⟩ := Unmarshal_take_Marshal l n hn
    rw [getData_of_error FileOps.fine _ e rfl he] at h
    exact absurd h (by simp)
  · exact List.take_of_length_le (by omega)

/-- One request keeps the persisted records valid. -/
theorem handleFunc_keeps_valid (jsonText : JsonError → GoString) (ops : FileOps) (req : Request)
    (disk : Disk)
    (h : ∀ c, getData FileOps.fine disk = .ok c → ∀ f ∈ c.elems, f.validate = none) :
    ∀ c, getData FileOps.fine (handleFunc jsonText ops req disk).2 = .ok c →
      ∀ f ∈ c.elems, f.validate = none := by
  intro c hc
  have key : ∀ c0, req.record.validate = none → getData ops disk = .ok c0 →
      getData FileOps.fine (some (Marshal (some (c0.elems ++ [req.record])))) = .ok c →
      ∀ f ∈ c.elems, f.validate = none := by
    intro c0 hv hg hl
    rw [getData_saved ops FileOps.fine disk c0 req.record hg rfl] at hl
    simp only [Except.ok.injEq] at hl
    subst hl
    intro f hf
    simp only [formSlice.elems, List.mem_append, List.mem_singleton] at hf
    rcases hf with hf | rfl
    · exact h c0 (getData_fine ops disk c0 hg FileOps.fine rfl) f hf
    · exact (validate_coerce _).mpr hv
  rcases handleFunc_disk jsonText ops req disk with hd | ⟨c0, hv, hg, ⟨_, hd⟩ | ⟨text, n, _, hd⟩⟩
  · rw [hd] at hc
    exact h c hc
  · rw [hd] at hc
    exact key c0 hv hg hc
  · rw [hd] at hc
    rw [take_Marshal_loads _ n c hc] at hc
    exact key c0 hv hg hc

/-- A run of requests keeps the persisted records valid. -/
theorem serve_keeps_valid (jsonText : JsonError → GoString) :
    ∀ (trace : List (FileOps × Request)) (disk : Disk),
    (∀ c, getData FileOps.fine disk = .ok c → ∀ f ∈ c.elems, f.validate = none) →
    ∀ c, getData FileOps.fine (serve jsonText trace disk) = .ok c →
      ∀ f ∈ c.elems, f.validate = none := by
  intro trace
  induction trace with
  | nil => intro disk h; exact h
  | cons step trace ih =>
    intro disk h
    obtain ⟨ops, req⟩ := step
    exact ih _ (handleFunc_keeps_valid jsonText ops req disk h)

/-! ## The claims -/

/-- C1: `validate` returns an error exactly when one of the four fields is
the empty string; the text of that error is "invalid input"; a record whose
four fields are non-empty is accepted whatever the fields hold. -/
theorem validate_spec (jsonText : JsonError → GoString) (f : formInput) :
    (f.validate ≠ none ↔
      f.FirstName = [] ∨ f.LastName = [] ∨ f.Email = [] ∨ f.PhoneNumber = []) ∧
    (∀ err, f.validate = some err → err.Error jsonText = ascii "invalid input") ∧
    (f.validate = none ↔
      f.FirstName ≠ [] ∧ f.LastName ≠ [] ∧ f.Email ≠ [] ∧ f.PhoneNumber ≠ []) := by
  refine ⟨?_, ?_, validate_eq_none f⟩
  · rw [Ne, validate_eq_none]
    constructor
    · intro h
      by_contra hn
      simp only [not_or] at hn
      exact h ⟨hn.1, hn.2.1, hn.2.2.1, hn.2.2.2⟩
    · rintro (h | h | h | h) hn
      · exact hn.1 h
      · exact hn.2.1 h
      · exact hn.2.2.1 h
      · exact hn.2.2.2 h
  · intro err h
    unfold formInput.validate at h
    split_ifs at h
    simp only [Option.some.injEq] at h
    rw [← h]
    rfl

/-- C10 as stated fails: a HEAD request on `/` is neither a POST nor a GET;
the handler writes status 404 and "not found", and the server sends the
status 404 without a body, so the body of the response is not "not found". -/
theorem unsupported_method_counterexample :
    headRequest.Method ≠ ascii "POST" ∧ headRequest.Method ≠ ascii "GET" ∧
    handleFunc sampleText FileOps.fine headRequest emptyStore =
      (⟨404, ascii "not found"⟩, emptyStore) ∧
    run sampleText FileOps.fine headRequest emptyStore = (⟨404, []⟩, emptyStore) ∧
    (run sampleText FileOps.fine headRequest emptyStore).1.body ≠ ascii "not found" := by
  decide

/-- C10 amended: for a request on `/` whose method is neither POST nor GET,
the handler writes status 404 and the body "not found", and the response of
the server is status 404 with the body "not found", except for a HEAD
request, whose response has status 404 and an empty body; this whatever the
form values, the file operations and the data file, which is left as it
was. -/
theorem unsupported_method_not_found (jsonText : JsonError → GoString) (ops : FileOps)
    (req : Request) (disk : Disk) (h1 : req.Method ≠ ascii "POST")
    (h2 : req.Method ≠ ascii "GET") :
    handleFunc jsonText ops req disk = (⟨404, ascii "not found"⟩, disk) ∧
    run jsonText ops req disk =
      (⟨404, if req.Method = ascii "HEAD" then [] else ascii "not found"⟩, disk) ∧
    (req.Method ≠ ascii "HEAD" → run jsonText ops req disk = (⟨404, ascii "not found"⟩, disk)) ∧
    (req.Method = ascii "HEAD" → run jsonText ops req disk = (⟨404, []⟩, disk)) := by
  have e : handleFunc jsonText ops req disk = (⟨404, ascii "not found"⟩, disk) :=
    handleFunc_other jsonText ops req disk h1 h2
  have e1 : run jsonText ops req disk =
      (⟨404, if req.Method = ascii "HEAD" then [] else ascii "not found"⟩, disk) := by
    unfold run
    rw [e]
    rfl
  refine ⟨e, e1, fun h => ?_, fun h => ?_⟩
  · rw [e1, if_neg h]
  · rw [e1, if_pos h]

/-- Witness for C10 amended: a PUT request on the empty store. -/
theorem unsupported_method_not_found_witness :
    putRequest.Method ≠ ascii "POST" ∧ putRequest.Method ≠ ascii "GET" ∧
    putRequest.Method ≠ ascii "HEAD" ∧
    run sampleText FileOps.fine putRequest emptyStore = (⟨404, ascii "not found"⟩, emptyStore) :=
  ⟨by decide, by decide, by decide,
    (unsupported_method_not_found sampleText FileOps.fine putRequest emptyStore (by decide)
      (by decide)).2.2.1 (by decide)⟩

/-- C3 as stated fails: `brokenForm` is a POST in which `first_name` is
empty, and the body of the response is the text of the `ParseForm` error, not
"invalid input". -/
theorem empty_field_body_counterexample :
    brokenForm.Method = ascii "POST" ∧ brokenForm.FormValue (ascii "first_name") = [] ∧
    (handleFunc sampleText FileOps.fine brokenForm emptyStore).1 =
      ⟨400, ascii "invalid URL escape \"%zz\""⟩ ∧
    (handleFunc sampleText FileOps.fine brokenForm emptyStore).1.body ≠ ascii "invalid input" := by
  decide

/-- C3 amended: a POST on `/` in which one of the four fields is empty is
answered with status 400 and leaves the data file as it was; the response
does not depend on the file operations or the data file (the Record Store is
not called); its body is "invalid input" when the form parsed, and the text
of the `ParseForm` error otherwise. -/
theorem empty_field_rejected (jsonText : JsonError → GoString) (ops : FileOps) (req : Request)
    (disk : Disk) (hm : req.Method = ascii "POST")
    (hf : req.FormValue (ascii "first_name") = [] ∨ req.FormValue (ascii "last_name") = [] ∨
      req.FormValue (ascii "email") = [] ∨ req.FormValue (ascii "phone_number") = []) :
    (handleFunc jsonText ops req disk).1.status = 400 ∧
    (handleFunc jsonText ops req disk).2 = disk ∧
    (∀ ops1 disk1, (handleFunc jsonText ops1 req disk1).1 = (handleFunc jsonText ops req disk).1) ∧
    (req.parseFormErr = none → (handleFunc jsonText ops req disk).1.body = ascii "invalid input") ∧
    (∀ err, req.parseFormErr = some err →
      (handleFunc jsonText ops req disk).1.body = err.Error jsonText) := by
  cases hp : req.parseFormErr with
  | some err =>
    have e := fun o d => handleFunc_parse_error jsonText o req d err hm hp
    refine ⟨by rw [e]; rfl, by rw [e], fun o d => by rw [e, e], fun h => absurd h (by simp), ?_⟩
    intro e1 he
    simp only [Option.some.injEq] at he
    rw [e, he]
  | none =>
    have hv : req.record.validate = some (.errorString (ascii "invalid input")) := if_pos hf
    have e := fun o d => handleFunc_invalid jsonText o req d _ hm hp hv
    exact ⟨by rw [e]; rfl, by rw [e], fun o d => by rw [e, e], fun _ => by rw [e]; rfl,
      fun e1 he => absurd he (by simp)⟩

/-- Witness for C3 amended: a POST with an empty `email` on the empty store. -/
theorem empty_field_rejected_witness :
    (postOf ⟨ascii "Ada", ascii "Lovelace", [], ascii "123"⟩).Method = ascii "POST" ∧
    (postOf ⟨ascii "Ada", ascii "Lovelace", [], ascii "123"⟩).FormValue (ascii "email") = [] ∧
    (handleFunc sampleText FileOps.fine (postOf ⟨ascii "Ada", ascii "Lovelace", [], ascii "123"⟩)
      emptyStore).1.status = 400 :=
  ⟨by decide, by decide,
    (empty_field_rejected sampleText FileOps.fine
      (postOf ⟨ascii "Ada", ascii "Lovelace", [], ascii "123"⟩) emptyStore (by decide)
      (Or.inr (Or.inr (Or.inl (by decide))))).1⟩

/-- C5: when a request reaches the Record Store (a GET, or a POST whose form
parsed and whose four fields are non-empty) and the load fails, whether the
file cannot be read or its content does not decode, the response is status
500 with the text of the load error, the data file is left as it was, and
`save` returns the load error without writing. -/
theorem load_failure_response (jsonText : JsonError → GoString) (ops : FileOps) (req : Request)
    (disk : Disk) (err : GoError)
    (hreach : req.Method = ascii "GET" ∨
      (req.Method = ascii "POST" ∧ req.parseFormErr = none ∧ req.record.FirstName ≠ [] ∧
        req.record.LastName ≠ [] ∧ req.record.Email ≠ [] ∧ req.record.PhoneNumber ≠ []))
    (hload : getData ops disk = .error err) :
    handleFunc jsonText ops req disk = (⟨500, err.Error jsonText⟩, disk) ∧
    (∀ f : formInput, f.save ops disk = (some err, disk)) := by
  refine ⟨?_, fun f => save_of_error f ops disk err hload⟩
  rcases hreach with hg | ⟨hm, hp, hne⟩
  · rw [handleFunc_get jsonText ops req disk hg, hload]
    rfl
  · have hv := (validate_eq_none req.record).mpr hne
    rw [handleFunc_valid jsonText ops req disk hm hp hv, save_of_error _ _ _ _ hload]
    rfl

/-- Witness for C5: a GET when the data file holds `oops`, which is not JSON. -/
theorem load_failure_response_witness :
    getData FileOps.fine (some (ascii "oops")) =
      .error (.json (.syntaxError (.invalidCharacter 0x6F "looking for beginning of value" 1))) ∧
    handleFunc sampleText FileOps.fine getRequest (some (ascii "oops")) =
      (⟨500, ascii "json error"⟩, some (ascii "oops")) :=
  ⟨by rfl,
    (load_failure_response sampleText FileOps.fine getRequest (some (ascii "oops"))
      (.json (.syntaxError (.invalidCharacter 0x6F "looking for beginning of value" 1)))
      (Or.inl (by decide)) (by rfl)).1⟩

/-- C6 as stated fails: the one-record collection `[rawByte]`, whose first
name is the byte 0xFF, is not read back as it was written; the first name
comes back as the three bytes of U+FFFD. -/
theorem roundtrip_counterexample :
    Unmarshal (Marshal (some [rawByte])) ≠ .ok (some [rawByte]) ∧
    Unmarshal (Marshal (some [rawByte])) =
      .ok (some [⟨[0xEF, 0xBF, 0xBD], ascii "Hopper", ascii "grace@example.org", ascii "456"⟩]) := by
  decide

/-- C6 amended: serializing a collection as the Record Store does on write
and deserializing the result as it does on load succeeds and yields the
collection with every string coerced to valid UTF-8 (each invalid byte
replaced by U+FFFD), same length and same order; for a collection whose
strings are all valid UTF-8 that is the collection itself. -/
theorem Marshal_roundtrip (c : formSlice) :
    Unmarshal (Marshal c) = .ok (c.map (List.map formInput.coerce)) ∧
    ((∀ f ∈ c.elems, f.utf8 = true) → Unmarshal (Marshal c) = .ok c) := by
  rcases c with _ | l
  · exact ⟨rfl, fun _ => rfl⟩
  · refine ⟨Unmarshal_Marshal l, fun h => ?_⟩
    rw [Unmarshal_Marshal, map_coerce_of_utf8 l h]

/-- C2 as stated fails: after a POST of `rawByte` (four non-empty fields) on
the empty store, answered with status 200, the document does not load as the
old collection followed by the submitted record. -/
theorem post_appends_counterexample :
    rawByte.FirstName ≠ [] ∧ rawByte.LastName ≠ [] ∧ rawByte.Email ≠ [] ∧
    rawByte.PhoneNumber ≠ [] ∧ (postOf rawByte).record = rawByte ∧
    getData FileOps.fine emptyStore = .ok (some []) ∧
    (handleFunc sampleText FileOps.fine (postOf rawByte) emptyStore).1 =
      ⟨200, ascii "form saved "⟩ ∧
    getData FileOps.fine (handleFunc sampleText FileOps.fine (postOf rawByte) emptyStore).2 ≠
      .ok (some ([] ++ [rawByte])) := by
  decide

/-- C2 amended: when the document loads as the collection `c`, a POST on `/`
whose form parsed and whose four fields are non-empty, with a write-back that
succeeds, is answered with status 200 and the body "form saved "; the
document is replaced by the serialized `c` followed by the record, and from
then on loads as `c` followed by the record coerced to valid UTF-8: one
element more, the earlier ones unchanged and in the same order.  The new last
element is the submitted record itself when its fields are valid UTF-8. -/
theorem post_appends (jsonText : JsonError → GoString) (ops : FileOps) (req : Request)
    (disk : Disk) (c : formSlice) (hm : req.Method = ascii "POST")
    (hp : req.parseFormErr = none)
    (hne : req.record.FirstName ≠ [] ∧ req.record.LastName ≠ [] ∧ req.record.Email ≠ [] ∧
      req.record.PhoneNumber ≠ [])
    (hload : getData ops disk = .ok c) (hw : ops.write = .success) :
    handleFunc jsonText ops req disk =
      (⟨200, ascii "form saved "⟩, some (Marshal (some (c.elems ++ [req.record])))) ∧
    (∀ ops1 : FileOps, ops1.readFails = none →
      getData ops1 (handleFunc jsonText ops req disk).2 =
        .ok (some (c.elems ++ [req.record.coerce]))) ∧
    (req.record.utf8 = true → req.record.coerce = req.record) := by
  have hv := (validate_eq_none req.record).mpr hne
  have e : handleFunc jsonText ops req disk =
      (⟨200, ascii "form saved "⟩, some (Marshal (some (c.elems ++ [req.record])))) := by
    rw [handleFunc_valid jsonText ops req disk hm hp hv, save_of_ok _ _ _ _ hload]
    simp only [WriteFile, hw]
    rfl
  refine ⟨e, fun ops1 h1 => ?_, coerce_of_utf8 _⟩
  rw [e]
  exact getData_saved ops ops1 disk c req.record hload h1

/-- Witness for C2 amended: the record of the specification posted on the
empty store. -/
theorem post_appends_witness :
    (postOf ada).Method = ascii "POST" ∧ (postOf ada).parseFormErr = none ∧
    getData FileOps.fine emptyStore = .ok (some []) ∧
    handleFunc sampleText FileOps.fine (postOf ada) emptyStore =
      (⟨200, ascii "form saved "⟩, some (Marshal (some ([] ++ [ada])))) :=
  ⟨by decide, by decide, by decide,
    (post_appends sampleText FileOps.fine (postOf ada) emptyStore (some []) (by decide)
      (by decide) (by decide) (by decide) (by decide)).1⟩

/-- C8 as stated fails: the body of the GET that follows the POST is not
exactly the array of the specification; a newline follows the array. -/
theorem end_to_end_counterexample :
    (handleFunc sampleText FileOps.fine getRequest
      (handleFunc sampleText FileOps.fine (postOf ada) emptyStore).2).1.body ≠
      ascii ("[\x7b\"first_name\":\"Ada\",\"last_name\":\"Lovelace\"," ++
        "\"email\":\"[email protected]\",\"phone_number\":\"123\"\x7d]") := by
  decide

/-- C8 amended: on the empty store `[]`, the POST of the record of the
specification is answered with status 200 and the body "form saved ", and the
GET that follows with status 200 and a body that is the one-element array of
the specification, its keys in the order first_name, last_name, email,
phone_number, followed by one newline and nothing else. -/
theorem end_to_end (jsonText : JsonError → GoString) :
    (handleFunc jsonText FileOps.fine (postOf ada) emptyStore).1 = ⟨200, ascii "form saved "⟩ ∧
    (handleFunc jsonText FileOps.fine getRequest
      (handleFunc jsonText FileOps.fine (postOf ada) emptyStore).2).1 =
      ⟨200, ascii ("[\x7b\"first_name\":\"Ada\",\"last_name\":\"Lovelace\"," ++
        "\"email\":\"[email protected]\",\"phone_number\":\"123\"\x7d]\n")⟩ := by
  constructor <;> rfl

/-- C9 as stated fails: the empty store loads, and after a POST whose
write-back fails once the file is open (`diskFull`), answered with status
500, the file is empty and no longer loads. -/
theorem document_loadable_counterexample :
    getData FileOps.fine emptyStore = .ok (some []) ∧
    (handleFunc sampleText diskFull (postOf ada) emptyStore).1.status = 500 ∧
    (handleFunc sampleText diskFull (postOf ada) emptyStore).2 = some [] ∧
    getData FileOps.fine (handleFunc sampleText diskFull (postOf ada) emptyStore).2 =
      .error (.json (.syntaxError (.unexpectedEnd 0))) := by
  decide

/-- C9 amended: if the document loads before a request on `/`, then it loads
after the request, whatever the method and the form values and whether the
submission is accepted or rejected, unless the request's write-back fails
after the file has been opened; in particular what a successful append
writes always loads. -/
theorem document_stays_loadable (jsonText : JsonError → GoString) (ops : FileOps)
    (req : Request) (disk : Disk) (c : formSlice) (hload : getData FileOps.fine disk = .ok c)
    (hw : ∀ text n, ops.write ≠ .writeFails text n) :
    (∃ c1, getData FileOps.fine (handleFunc jsonText ops req disk).2 = .ok c1) ∧
    (∀ l : List formInput, ∃ c1, Unmarshal (Marshal (some l)) = .ok c1) := by
  refine ⟨?_, fun l => ⟨_, Unmarshal_Marshal l⟩⟩
  rcases handleFunc_disk jsonText ops req disk with hd | ⟨c0, _, hg, ⟨_, hd⟩ | ⟨text, n, hwf, _⟩⟩
  · rw [hd]
    exact ⟨c, hload⟩
  · rw [hd]
    exact ⟨_, getData_saved ops FileOps.fine disk c0 req.record hg rfl⟩
  · exact absurd hwf (hw text n)

/-- Witness for C9 amended: the record of the specification posted on the
empty store with file operations that succeed. -/
theorem document_stays_loadable_witness :
    getData FileOps.fine emptyStore = .ok (some []) ∧
    ∃ c1, getData FileOps.fine (handleFunc sampleText FileOps.fine (postOf ada) emptyStore).2 =
      .ok c1 :=
  ⟨by decide,
    (document_stays_loadable sampleText FileOps.fine (postOf ada) emptyStore (some [])
      (by decide) (fun _ _ => by simp [FileOps.fine])).1⟩

/-- C4 as stated fails: after the single successful submission `rawByte` on
the empty store, the GET is answered with status 200, but its body is not the
serialization of that record and does not decode to it. -/
theorem get_after_posts_counterexample :
    noFailedPost sampleText [(FileOps.fine, postOf rawByte)] emptyStore = true ∧
    accepted sampleText [(FileOps.fine, postOf rawByte)] emptyStore = [rawByte] ∧
    (handleFunc sampleText FileOps.fine getRequest
      (serve sampleText [(FileOps.fine, postOf rawByte)] emptyStore)).1.status = 200 ∧
    (handleFunc sampleText FileOps.fine getRequest
      (serve sampleText [(FileOps.fine, postOf rawByte)] emptyStore)).1.body ≠
        Marshal (some [rawByte]) ++ [0x0A] ∧
    Unmarshal (handleFunc sampleText FileOps.fine getRequest
      (serve sampleText [(FileOps.fine, postOf rawByte)] emptyStore)).1.body ≠
        .ok (some [rawByte]) := by
  decide

/-- C4 amended: after any run of requests on the initially empty store `[]`
in which no submission failed with status 500 (so that every POST was saved
or rejected; GETs and other methods are free), a GET whose read succeeds is
answered with status 200 and a body that is the JSON array of the accepted
records in submission order, each coerced to valid UTF-8, followed by a
newline; the body decodes to exactly these records, as many as there were
successful submissions; they are the submitted records themselves when these
are valid UTF-8. -/
theorem get_after_posts (jsonText : JsonError → GoString) (trace : List (FileOps × Request))
    (ops : FileOps) (req : Request) (hclean : noFailedPost jsonText trace emptyStore = true)
    (hget : req.Method = ascii "GET") (hread : ops.readFails = none) :
    handleFunc jsonText ops req (serve jsonText trace emptyStore) =
      (⟨200, Marshal (some ((accepted jsonText trace emptyStore).map formInput.coerce)) ++ [0x0A]⟩,
        serve jsonText trace emptyStore) ∧
    Unmarshal (Marshal (some ((accepted jsonText trace emptyStore).map formInput.coerce)) ++ [0x0A]) =
      .ok (some ((accepted jsonText trace emptyStore).map formInput.coerce)) ∧
    ((accepted jsonText trace emptyStore).map formInput.coerce).length =
      (accepted jsonText trace emptyStore).length ∧
    ((∀ f ∈ accepted jsonText trace emptyStore, f.utf8 = true) →
      (accepted jsonText trace emptyStore).map formInput.coerce =
        accepted jsonText trace emptyStore) := by
  have h0 : getData FileOps.fine emptyStore = .ok (some []) := by decide
  have h1 := serve_loads jsonText trace emptyStore [] h0 hclean
  have h2 := getData_fine _ _ _ h1 ops hread
  rw [List.nil_append] at h2
  refine ⟨?_, ?_, List.length_map _ _, map_coerce_of_utf8 _⟩
  · rw [handleFunc_get jsonText ops req _ hget, h2]
    rfl
  · have e := Unmarshal_Marshal_newline ((accepted jsonText trace emptyStore).map formInput.coerce)
    have e1 := getData_utf8 _ _ _ h2
    simp only [formSlice.elems] at e1
    rw [e, e1]

/-- Witness for C4 amended: `sampleRun`, in which `ada` and `grace` are
accepted. -/
theorem get_after_posts_witness :
    noFailedPost sampleText sampleRun emptyStore = true ∧
    accepted sampleText sampleRun emptyStore = [ada, grace] ∧
    (handleFunc sampleText FileOps.fine getRequest (serve sampleText sampleRun emptyStore)).1 =
      ⟨200, Marshal (some [ada, grace]) ++ [0x0A]⟩ :=
  ⟨by decide, by decide,
    (congrArg Prod.fst (get_after_posts sampleText sampleRun FileOps.fine getRequest (by decide)
      (by decide) (by decide)).1).trans (by decide)⟩

/-- C7: a record that fails the non-empty check is never persisted.  A
request whose record fails `validate` leaves the data file as it was; and
starting from a persisted collection in which every record passes `validate`,
after any run of requests on `/` (any methods, any form values, any outcome of
the file operations) handled one after the other, every record of the
collection the data file then holds passes `validate`. -/
theorem persisted_records_valid (jsonText : JsonError → GoString)
    (trace : List (FileOps × Request)) (disk : Disk) (c0 c : formSlice)
    (h0 : getData FileOps.fine disk = .ok c0) (hv : ∀ f ∈ c0.elems, f.validate = none)
    (h : getData FileOps.fine (serve jsonText trace disk) = .ok c) :
    (∀ f ∈ c.elems, f.validate = none) ∧
    (∀ (ops : FileOps) (req : Request) (d : Disk), req.record.validate ≠ none →
      (handleFunc jsonText ops req d).2 = d) := by
  constructor
  · refine serve_keeps_valid jsonText trace disk ?_ c h
    intro c1 h1
    rw [h0] at h1
    simp only [Except.ok.injEq] at h1
    rw [← h1]
    exact hv
  · intro ops req d hn
    rcases handleFunc_disk jsonText ops req d with hd | ⟨_, hv1, _⟩
    · exact hd
    · exact absurd hv1 hn

/-- Witness for C7: `mixedRun` on the empty store, after which the collection
holds `ada`. -/
theorem persisted_records_valid_witness :
    getData FileOps.fine emptyStore = .ok (some []) ∧
    getData FileOps.fine (serve sampleText mixedRun emptyStore) = .ok (some [ada]) ∧
    ∀ f ∈ formSlice.elems (some [ada]), f.validate = none :=
  ⟨by decide, by decide,
    (persisted_records_valid sampleText mixedRun emptyStore (some []) (some [ada]) (by decide)
      (by decide) (by decide)).1⟩

end HonestAssessment
